import Mathlib

/-!
Shallow embedding of the ggcomms Hold'em servers.

The repository contains two standalone server variants:
* `src/unnamed/part_000` — the engine with side pots, dealer rotation and an
  explicit all-in action; embedded in namespace `P0`.
* `src/server.js` — the simpler engine without side pots; embedded in
  namespace `SJ`.

Modelling conventions:
* JS numbers that are always non-negative integers in the engine (chips, bets,
  contributions, pot totals, amounts) are `Nat`; the one place where a JS
  subtraction can go negative (`raiseAmt` in the all-in branch) is computed in
  `Int`, exactly as the sign test requires.
* JS arrays of fixed size `MAX_SEATS` are `List`s read with `getD` (a missing
  index reads as the JS `|| 0` / falsy default) and written with `List.set`.
* The deck is kept in draw order: the JS pops cards from the *end* of its
  array, so the embedded list is the JS array reversed, and drawing takes the
  head.  `shuffle` uses `Math.random`; the shuffled deck is supplied as a
  parameter to `startHand`.
* The JS results object of `distributePots` (seat -> chips won, reading a
  missing key as `|| 0`) is modelled as a total function `Nat → Nat` that is
  `0` outside the written keys.
-/

inductive Suit
  | s | h | d | c
deriving DecidableEq, Repr

def SUITS : List Suit := [.s, .h, .d, .c]

/-- A card `"Rs"`: `rank` is `RANKS.indexOf(card[0])` (0 = deuce .. 12 = ace),
`suit` is the second character.  Every card built by `makeDeck` has a rank in
`0..12`, so the rank is a `Fin 13`. -/
structure Card where
  rank : Fin 13
  suit : Suit
deriving DecidableEq, Repr

def rankIndex (card : Card) : Nat := card.rank

def suitOf (card : Card) : Suit := card.suit

namespace P0

/-- Result of `evaluateBest7`: the comparable score array and the description. -/
structure EvalResult where
  score : List Nat
  desc : String
deriving DecidableEq, Repr

/-- The 13-slot `counts` table: `counts[r]++` for each card. -/
def countsOf (cards : List Card) (r : Nat) : Nat :=
  (cards.filter (fun card => rankIndex card = r)).length

/-- `suits[s]`: the rank list collected per suit. -/
def suitRanksOf (cards : List Card) (su : Suit) : List Nat :=
  (cards.filter (fun card => suitOf card = su)).map rankIndex

/-- The descending rank scan `for (let r = 12; r >= 0; r--)`. -/
def ranksDescending : List Nat := (List.range 13).reverse

/-- Descending insertion sort, modelling `sort((a,b) => b - a)`. -/
def insertDesc (x : Nat) : List Nat → List Nat
  | [] => [x]
  | y :: ys => if y < x then x :: y :: ys else y :: insertDesc x ys

def sortDesc : List Nat → List Nat
  | [] => []
  | x :: xs => insertDesc x (sortDesc xs)

/-- `Array.from(new Set(arr)).sort((a,b) => b - a)`. -/
def dedupSortDesc (xs : List Nat) : List Nat := sortDesc xs.dedup

/-- `findStraight(highToLowRanks)`: the highest `top ∈ [4..12]` whose five
ranks `top..top-4` are all present, else the wheel A-2-3-4-5 giving `3`,
else `null`. -/
def findStraight (highToLowRanks : List Nat) : Option Nat :=
  let present := fun r => highToLowRanks.contains r
  match (List.range' 4 9).reverse.find?
      (fun top => (List.range 5).all (fun k => present (top - k))) with
  | some top => some top
  | none =>
    if present 12 && present 0 && present 1 && present 2 && present 3 then
      some 3
    else none

/-- The two-pair scan
`for (r = 12; r >= 0; r--) if (counts[r] >= 2) { if (!p1) p1 = r; else if (!p2) { p2 = r; break; } }`.
The JS truthiness test `!p` is true for both `null` and `0`, i.e. for
`Option.getD p 0 = 0`. -/
def findPairs (counts : Nat → Nat) : List Nat → Option Nat → Option Nat →
    Option Nat × Option Nat
  | [], p1, p2 => (p1, p2)
  | r :: rest, p1, p2 =>
    if 2 ≤ counts r then
      if p1.getD 0 = 0 then findPairs counts rest (some r) p2
      else if p2.getD 0 = 0 then (p1, some r)
      else findPairs counts rest p1 p2
    else findPairs counts rest p1 p2

/-- `evaluateBest7(cards)` from `part_000`.

Where the JS pushes `null` into a score slot (a kicker search that finds
nothing — impossible for inputs of ≥ 5 cards) the model stores `0`:
`compareScoreArrays`, the only consumer, reads both `null` and a missing
entry as `0`. -/
def evaluateBest7 (cards : List Card) : EvalResult :=
  if cards.length < 5 then ⟨[0], "invalid"⟩ else
  let counts := countsOf cards
  let uniqueDesc := ranksDescending.filter (fun i => counts i ≠ 0)
  -- Straight flush: first suit with ≥ 5 cards whose unique ranks straighten.
  match SUITS.findSome? (fun su =>
      if 5 ≤ (suitRanksOf cards su).length then
        findStraight (dedupSortDesc (suitRanksOf cards su))
      else none) with
  | some sf => ⟨[8, sf], "Straight Flush"⟩
  | none =>
  -- Quads.
  match ranksDescending.find? (fun r => counts r = 4) with
  | some r =>
    let kicker := ranksDescending.find? (fun k => k ≠ r && 0 < counts k)
    ⟨[7, r, kicker.getD 0], "Four of a Kind"⟩
  | none =>
  let three := ranksDescending.find? (fun r => 3 ≤ counts r)
  -- Full house; on failure the JS falls through to the flush check.
  let fullHouse : Option EvalResult :=
    match three with
    | none => none
    | some t =>
      match ranksDescending.find? (fun r => r ≠ t && 2 ≤ counts r) with
      | some p => some ⟨[6, t, p], "Full House"⟩
      | none =>
        match ranksDescending.find? (fun r => r ≠ t && 3 ≤ counts r) with
        | some p => some ⟨[6, t, p], "Full House"⟩
        | none => none
  match fullHouse with
  | some res => res
  | none =>
  -- Flush.
  match SUITS.find? (fun su => 5 ≤ (suitRanksOf cards su).length) with
  | some su => ⟨5 :: (sortDesc (suitRanksOf cards su)).take 5, "Flush"⟩
  | none =>
  -- Straight.
  match findStraight uniqueDesc with
  | some hi => ⟨[4, hi], "Straight"⟩
  | none =>
  -- Trips.
  match three with
  | some t =>
    let kickers := (ranksDescending.filter (fun r => r ≠ t && 0 < counts r)).take 2
    ⟨[3, t] ++ kickers, "Trips"⟩
  | none =>
  -- Two pair / one pair / high card.
  match findPairs counts ranksDescending none none with
  | (some p1, some p2) =>
    let kicker := ranksDescending.find? (fun r => r ≠ p1 && r ≠ p2 && 0 < counts r)
    ⟨[2, p1, p2, kicker.getD 0], "Two Pair"⟩
  | (some p1, none) =>
    let kickers := (ranksDescending.filter (fun r => r ≠ p1 && 0 < counts r)).take 3
    ⟨[1, p1] ++ kickers, "Pair"⟩
  | (none, _) =>
    ⟨0 :: uniqueDesc.take 5, "High Card"⟩

/-- The tail of the `compareScoreArrays` loop once `a` has run out: every
remaining slot of `a` reads as `0`. -/
def compareFromEmpty : List Nat → Int
  | [] => 0
  | b :: bs => if 0 < b then -1 else compareFromEmpty bs

/-- `compareScoreArrays(a, b)`: lexicographic up to the longer length, a
missing entry (`a[i] || 0`) reading as `0`. -/
def compareScoreArrays : List Nat → List Nat → Int
  | [], bs => compareFromEmpty bs
  | a :: as, bs =>
    let bv := bs.headD 0
    if bv < a then 1
    else if a < bv then -1
    else compareScoreArrays as bs.tail

/-! ### Side pots -/

structure Pot where
  amount : Nat
  eligibleSeats : List Nat
deriving DecidableEq, Repr

/-- The indices with `remaining[i] > 0` (the `positive` list of `buildPots`). -/
def positiveSeats (remaining : List Nat) : List Nat :=
  (List.range remaining.length).filter (fun i => 0 < remaining.getD i 0)

/-- The smallest positive value among the contributors (`min` in `buildPots`;
`Infinity` when there is none, which the loop never reads — modelled as 0). -/
def minPositive (remaining : List Nat) : Nat :=
  match remaining.filter (fun v => 0 < v) with
  | [] => 0
  | v :: vs => vs.foldl Nat.min v

/-- `for (const i of contributors) remaining[i] -= min`: subtract `m` from
every positive entry. -/
def subtractLayer (remaining : List Nat) (m : Nat) : List Nat :=
  remaining.map (fun v => if 0 < v then v - m else v)

/-- The `while (true)` loop of `buildPots`.  Each pass subtracts the positive
layer minimum from every positive entry, so `remaining.sum` strictly
decreases; any `fuel ≥ remaining.sum` therefore bounds the number of passes,
and the result does not depend on the bound (`buildPotsLoop_congr`). -/
def buildPotsLoop (activeMask : List Bool) : Nat → List Nat → List Pot
  | 0, _ => []
  | fuel + 1, remaining =>
    if positiveSeats remaining = [] then []
    else
      let positive := positiveSeats remaining
      let m := minPositive remaining
      let pot : Pot :=
        ⟨m * positive.length, positive.filter (fun i => activeMask.getD i false)⟩
      pot :: buildPotsLoop activeMask fuel (subtractLayer remaining m)

def buildPots (contribs : List Nat) (activeMask : List Bool) : List Pot :=
  buildPotsLoop activeMask contribs.sum contribs

/-! ### Pot distribution -/

/-- `seatHands`: the map `seat -> {score, desc}` (a missing key is `none`). -/
def SeatHands := Nat → Option EvalResult

/-- The scan for the best score among a pot's eligible seats:
`if (!seatHands[s]) continue; if (!best) best = ...; else if (cmp > 0) best = ...`.
The JS keeps `{seat, score}`; only the score is read afterwards. -/
def findBestScore (hands : SeatHands) : List Nat → Option (List Nat) → Option (List Nat)
  | [], best => best
  | seat :: rest, best =>
    match hands seat with
    | none => findBestScore hands rest best
    | some hd =>
      match best with
      | none => findBestScore hands rest (some hd.score)
      | some b =>
        if 0 < compareScoreArrays hd.score b then findBestScore hands rest (some hd.score)
        else findBestScore hands rest best

/-- The tied-winners scan: eligible seats with a hand whose score compares
equal to the best. -/
def winnersOf (hands : SeatHands) (eligible : List Nat) (best : List Nat) : List Nat :=
  eligible.filter (fun seat =>
    match hands seat with
    | none => false
    | some hd => compareScoreArrays hd.score best = 0)

/-- `results[s] = (results[s] || 0) + x` on the results object. -/
def bump (results : Nat → Nat) (seat : Nat) (x : Nat) : Nat → Nat :=
  fun t => if t = seat then results t + x else results t

/-- The body of `for (const p of pots)` in `distributePots`. -/
def distributeStep (hands : SeatHands) (results : Nat → Nat) (p : Pot) : Nat → Nat :=
  match findBestScore hands p.eligibleSeats none with
  | none => results
  | some best =>
    let winners := winnersOf hands p.eligibleSeats best
    let share := p.amount / winners.length
    let remainder := p.amount - share * winners.length
    let results1 := winners.foldl (fun res seat => bump res seat share) results
    match winners with
    | [] => results1
    | w :: _ => if 0 < remainder then bump results1 w remainder else results1

/-- `distributePots(pots, seatHands)`: seat -> chips won. -/
def distributePots (pots : List Pot) (hands : SeatHands) : Nat → Nat :=
  pots.foldl (distributeStep hands) (fun _ => 0)

/-! ### Table state (`const state = {...}`) -/

def MAX_SEATS : Nat := 6
def SMALL_BLIND : Nat := 10
def BIG_BLIND : Nat := 20

/-- A seated player `{ socketId, username, chips, id }`; the socket id and the
uuid are modelled as numbers. -/
structure Player where
  socketId : Nat
  username : String
  chips : Nat
  pid : Nat
deriving DecidableEq, Repr

/-- `state.phase`: `'idle' | 'dealing' | 'betting' | 'showdown'` (the comment
lists `dealing`; the code only ever sets the other three). -/
inductive Phase
  | idle | dealing | betting | showdown
deriving DecidableEq, Repr

structure GState where
  seats : List (Option Player)
  ownerSocket : Option Nat
  dealer : Int
  deck : List Card
  community : List Card
  phase : Phase
  contributions : List Nat
  currentBets : List Nat
  folded : List Bool
  holeCards : List (Option (Card × Card))
  activeSeats : List Nat
  currentTurnSeat : Option Nat
  minimumRaise : Nat
  lastAggressor : Option Nat
  potTotal : Nat
deriving DecidableEq, Repr

/-- `seatIndexForSocket`, together with the player found there (the JS reads
`state.seats[seatIdx]` right after the lookup). -/
def seatLookup (st : GState) (socketId : Nat) : Option (Nat × Player) :=
  (List.range MAX_SEATS).findSome? (fun i =>
    match st.seats.getD i none with
    | some p => if p.socketId = socketId then some (i, p) else none
    | none => none)

/-- `deck.pop()`: the deck list is in draw order, so this takes the head.
Popping an empty deck yields `undefined` in JS and never happens during a
hand dealt from a 52-card deck; it is modelled by a junk card. -/
def drawOne : List Card → Card × List Card
  | [] => (⟨0, Suit.s⟩, [])
  | card :: rest => (card, rest)

/-- `resetHand()`. -/
def resetHand (st : GState) : GState :=
  { st with
    deck := []
    community := []
    phase := .idle
    contributions := List.replicate MAX_SEATS 0
    currentBets := List.replicate MAX_SEATS 0
    folded := List.replicate MAX_SEATS false
    holeCards := List.replicate MAX_SEATS none
    activeSeats := []
    currentTurnSeat := none
    minimumRaise := BIG_BLIND
    lastAggressor := none
    potTotal := 0 }

/-- The seat index `(from + step) % MAX_SEATS` as a `Nat`; `from` starts at
`-1` (the initial dealer) and `step ≥ 1`, so the dividend is non-negative. -/
def seatAt (from_ : Int) (step : Nat) : Nat :=
  ((from_ + (step : Int)) % (MAX_SEATS : Int)).toNat

/-- `nextOccupied(from)` in `startHand`: the next seat that is occupied and
has `chips > 0`. -/
def nextOccupiedPos (st : GState) (from_ : Int) : Option Nat :=
  (List.range' 1 MAX_SEATS).findSome? (fun step =>
    let idx := seatAt from_ step
    match st.seats.getD idx none with
    | some p => if 0 < p.chips then some idx else none
    | none => none)

/-- Post a blind: `seats[i].chips -= amt; contributions[i] = amt;
currentBets[i] = amt; potTotal += amt` where `amt = min(chips, blind)`. -/
def postBlind (st : GState) (i : Nat) (blind : Nat) : GState :=
  match st.seats.getD i none with
  | none => st
  | some p =>
    let amt := min p.chips blind
    { st with
      seats := st.seats.set i (some { p with chips := p.chips - amt })
      contributions := st.contributions.set i amt
      currentBets := st.currentBets.set i amt
      potTotal := st.potTotal + amt }

/-- The dealing loop: for each seat in order pop two cards into
`holeCards[idx]`. -/
def dealHoles (order : List Nat) (deck : List Card)
    (holes : List (Option (Card × Card))) : List Card × List (Option (Card × Card)) :=
  match order with
  | [] => (deck, holes)
  | idx :: rest =>
    let (c1, d1) := drawOne deck
    let (c2, d2) := drawOne d1
    dealHoles rest d2 (holes.set idx (some (c1, c2)))

inductive ActRes
  | ok
  | err (msg : String)
deriving DecidableEq, Repr

/-- `startHand()` from `part_000`.  `shuffle(makeDeck())` draws on
`Math.random`; the model takes the shuffled deck as the parameter
`shuffled`, given in draw order. -/
def startHand (st : GState) (shuffled : List Card) : ActRes × GState :=
  let seated := (List.range MAX_SEATS).filter (fun i =>
    match st.seats.getD i none with
    | some p => 0 < p.chips
    | none => false)
  if seated.length < 2 then (.err "need at least 2 players with chips", st)
  else
    let st1 := resetHand st
    let st2 := { st1 with deck := shuffled }
    -- rotate dealer to the next occupied seat with chips
    let st3 :=
      match (List.range' 1 MAX_SEATS).find? (fun step =>
        match st2.seats.getD (seatAt st2.dealer step) none with
        | some p => 0 < p.chips
        | none => false) with
      | some step => { st2 with dealer := (seatAt st2.dealer step : Nat) }
      | none => st2
    match nextOccupiedPos st3 st3.dealer with
    | none => (.err "not enough players for blinds", st3)
    | some sb =>
      match nextOccupiedPos st3 (sb : Int) with
      | none => (.err "not enough players for blinds", st3)
      | some bb =>
        let st4 := postBlind st3 sb SMALL_BLIND
        let st5 := postBlind st4 bb BIG_BLIND
        -- deal hole cards to seated players starting after the dealer
        -- (`chips >= 0` holds for every occupied seat)
        let order := (List.range' 1 MAX_SEATS).filterMap (fun step =>
          let idx := seatAt st5.dealer step
          match st5.seats.getD idx none with
          | some p => if 0 ≤ p.chips then some idx else none
          | none => none)
        let (deck', holes') := dealHoles order st5.deck st5.holeCards
        let st6 := { st5 with
          deck := deck'
          holeCards := holes'
          activeSeats := order
          phase := .betting
          minimumRaise := BIG_BLIND
          lastAggressor := none }
        let st7 := { st6 with currentTurnSeat := nextOccupiedPos st6 (bb : Int) }
        (.ok, st7)

/-! ### The betting action handler -/

/-- `advanceToNextActive(fromIdx)`: next occupied, non-folded seat. -/
def advanceToNextActive (st : GState) (fromIdx : Nat) : Option Nat :=
  (List.range' 1 MAX_SEATS).findSome? (fun step =>
    let idx := (fromIdx + step) % MAX_SEATS
    match st.seats.getD idx none with
    | none => none
    | some _ => if st.folded.getD idx false then none else some idx)

/-- `activePlayersRemaining()`. -/
def activePlayersRemaining (st : GState) : List Nat :=
  st.activeSeats.filter (fun idx => ! st.folded.getD idx false)

/-- `highestCurrentBet()`: `Math.max(...state.currentBets)` (the array always
has `MAX_SEATS` non-negative entries). -/
def highestCurrentBet (st : GState) : Nat :=
  st.currentBets.foldr max 0

/-- The action payload `{type, amount}`.  `Math.floor(Math.max(0, Number(a) || 0))`
collapses every JS amount to a natural number.  Unknown tags are `other`. -/
inductive ActionType
  | fold | check | call | bet | raise | allin | other (tag : String)
deriving DecidableEq, Repr

structure Action where
  type : ActionType
  amount : Nat
deriving DecidableEq, Repr

/-- A chip commitment: `player.chips -= put; currentBets[i] += put;
contributions[i] += put; potTotal += put`. -/
def commit (st : GState) (i : Nat) (p : Player) (put : Nat) : GState :=
  { st with
    seats := st.seats.set i (some { p with chips := p.chips - put })
    currentBets := st.currentBets.set i (st.currentBets.getD i 0 + put)
    contributions := st.contributions.set i (st.contributions.getD i 0 + put)
    potTotal := st.potTotal + put }

/-- The per-action branch of `performAction` (everything between the
validation prologue and the turn/round bookkeeping).  Errors are returned
before any mutation, exactly as in the source. -/
def applyAction (st : GState) (seatIdx : Nat) (p : Player) (act : Action) :
    Except String GState :=
  let highest := highestCurrentBet st
  match act.type with
  | .fold => .ok { st with folded := st.folded.set seatIdx true }
  | .check =>
    if st.currentBets.getD seatIdx 0 ≠ highest then
      .error "cannot check; need to call or fold"
    else .ok st
  | .call =>
    let toCall := highest - st.currentBets.getD seatIdx 0
    let put := min toCall p.chips
    .ok (commit st seatIdx p put)
  | .bet | .raise =>
    let amt := act.amount
    if amt = 0 then .error "invalid amount"
    else
      let toCall := highest - st.currentBets.getD seatIdx 0
      let totalPut := min p.chips (toCall + amt)
      if totalPut ≤ toCall then .error "raise amount too small"
      else if amt < st.minimumRaise then
        .error ("raise below minimum: " ++ toString st.minimumRaise)
      else
        let st1 := commit st seatIdx p totalPut
        .ok { st1 with
          minimumRaise := max st1.minimumRaise amt
          lastAggressor := some seatIdx }
  | .allin =>
    let amt := p.chips
    let toCall := highest - st.currentBets.getD seatIdx 0
    let totalPut := amt
    let st1 := commit st seatIdx p totalPut
    let raiseAmt : Int := (totalPut : Int) - (toCall : Int)
    let st2 :=
      if 0 < raiseAmt then
        { st1 with minimumRaise := max st1.minimumRaise raiseAmt.toNat }
      else st1
    .ok { st2 with lastAggressor := some seatIdx }
  | .other _ => .error "unknown action"

/-- `bettingRoundComplete()` (the JS would throw on a vacated active seat;
such a seat is skipped here, outside the modelled flow). -/
def bettingRoundComplete (st : GState) : Bool :=
  let active := activePlayersRemaining st
  if active.length ≤ 1 then true
  else
    let maxBet := highestCurrentBet st
    active.all (fun idx =>
      match st.seats.getD idx none with
      | some p => !(0 < p.chips && st.currentBets.getD idx 0 ≠ maxBet)
      | none => true)

/-- The street-advance turn reset: first occupied non-folded seat after the
dealer. -/
def firstActiveAfterDealer (st : GState) : Option Nat :=
  (List.range' 1 MAX_SEATS).findSome? (fun step =>
    let idx := seatAt st.dealer step
    match st.seats.getD idx none with
    | none => none
    | some _ => if st.folded.getD idx false then none else some idx)

/-- The `activeMask` built at showdown: dealt this hand and not folded. -/
def showdownMask (st : GState) : List Bool :=
  (List.range MAX_SEATS).map (fun i =>
    st.activeSeats.contains i && ! st.folded.getD i false)

/-- The `handMap` built at showdown: hole cards concatenated with the board,
for seats with hole cards that are still active. -/
def showdownHands (st : GState) (mask : List Bool) : SeatHands :=
  fun i =>
    if i < MAX_SEATS then
      match st.holeCards.getD i none with
      | some (c1, c2) =>
        if mask.getD i false then some (evaluateBest7 ([c1, c2] ++ st.community))
        else none
      | none => none
    else none

/-- Apply the `awards` map: `if (state.seats[seat]) seats[seat].chips += amount`
(the JS only iterates existing keys; adding the default `0` elsewhere is the
same). -/
def applyAwards (seats : List (Option Player)) (awards : Nat → Nat) :
    List (Option Player) :=
  (List.range MAX_SEATS).foldl (fun acc i =>
    match acc.getD i none with
    | some p => acc.set i (some { p with chips := p.chips + awards i })
    | none => acc) seats

/-- The showdown arm of the street-advance `else` branch; the
`setTimeout(.., 2500)` that later moves the phase to `idle` is outside the
synchronous step. -/
def runShowdown (st : GState) : GState :=
  let mask := showdownMask st
  let pots := buildPots st.contributions mask
  let hands := showdownHands st mask
  let awards := distributePots pots hands
  { st with
    phase := .showdown
    seats := applyAwards st.seats awards
    potTotal := 0 }

/-- The street-advance block run when `bettingRoundComplete()`: reset the
round bookkeeping, then burn and deal by community size, or run showdown. -/
def advanceStreetOrShowdown (st : GState) : GState :=
  let st := { st with
    currentBets := List.replicate MAX_SEATS 0
    minimumRaise := BIG_BLIND
    lastAggressor := none }
  if st.community.length = 0 then
    let d0 := (drawOne st.deck).2
    let r1 := drawOne d0
    let r2 := drawOne r1.2
    let r3 := drawOne r2.2
    { st with
      deck := r3.2
      community := st.community ++ [r1.1, r2.1, r3.1]
      phase := .betting
      currentTurnSeat := firstActiveAfterDealer st }
  else if st.community.length = 3 then
    let d0 := (drawOne st.deck).2
    let r1 := drawOne d0
    { st with
      deck := r1.2
      community := st.community ++ [r1.1]
      phase := .betting
      currentTurnSeat := firstActiveAfterDealer st }
  else if st.community.length = 4 then
    let d0 := (drawOne st.deck).2
    let r1 := drawOne d0
    { st with
      deck := r1.2
      community := st.community ++ [r1.1]
      phase := .betting
      currentTurnSeat := firstActiveAfterDealer st }
  else
    runShowdown st

/-- `performAction(socketId, action)` from `part_000`: validation prologue,
per-action branch, turn advancement, and street advance / showdown when the
betting round is complete. -/
def performAction (st : GState) (socketId : Nat) (act : Action) : ActRes × GState :=
  match seatLookup st socketId with
  | none => (.err "not seated", st)
  | some (seatIdx, p) =>
    if st.phase ≠ .betting then (.err "not in betting phase", st)
    else if st.currentTurnSeat ≠ some seatIdx then (.err "not your turn", st)
    else if st.folded.getD seatIdx false then (.err "already folded", st)
    else
      match applyAction st seatIdx p act with
      | .error e => (.err e, st)
      | .ok st1 =>
        let st2 := { st1 with currentTurnSeat := advanceToNextActive st1 seatIdx }
        if bettingRoundComplete st2 then (.ok, advanceStreetOrShowdown st2)
        else (.ok, st2)

/-- Σ chips over the seated players (a specification-side measure). -/
def sumChips (st : GState) : Nat :=
  (st.seats.map (fun s? =>
    match s? with
    | some p => p.chips
    | none => 0)).sum

/-! ### Per-viewer projection (`publicStateForSocket`) -/

/-- What the `hole` field of a seat view carries: the real cards, or the two
opaque placeholders `['??','??']`. -/
inductive HoleView
  | shown (c1 c2 : Card)
  | hidden
deriving DecidableEq, Repr

/-- One element of the `seats` view array. -/
structure SeatView where
  username : String
  chips : Nat
  seat : Nat
  pid : Nat
  contribution : Nat
  currentBet : Nat
  folded : Bool
  hole : Option HoleView
deriving DecidableEq, Repr

structure TableView where
  seats : List (Option SeatView)
  ownerSet : Bool
  ownerSocket : Option Nat
  dealer : Int
  phase : Phase
  community : List Card
  potTotal : Nat
  currentTurnSeat : Option Nat
  minimumRaise : Nat
  smallBlind : Nat
  bigBlind : Nat
deriving DecidableEq, Repr

/-- The body of `state.seats.map((s, idx) => ...)` for one seat. -/
def seatViewOne (st : GState) (socketId : Nat) (idx : Nat) :
    Option Player → Option SeatView
  | none => none
  | some p =>
    let hole :=
      match st.holeCards.getD idx none with
      | some (c1, c2) =>
        if p.socketId = socketId || st.phase = .showdown then
          some (HoleView.shown c1 c2)
        else some HoleView.hidden
      | none => none
    some {
      username := p.username
      chips := p.chips
      seat := idx
      pid := p.pid
      contribution := st.contributions.getD idx 0
      currentBet := st.currentBets.getD idx 0
      folded := st.folded.getD idx false
      hole := hole }

/-- `Array.prototype.map` with the element index. -/
def mapWithIndex (f : Nat → α → β) : List α → Nat → List β
  | [], _ => []
  | a :: rest, idx => f idx a :: mapWithIndex f rest (idx + 1)

/-- `publicStateForSocket(socketId)` from `part_000`. -/
def publicStateForSocket (st : GState) (socketId : Nat) : TableView :=
  { seats := mapWithIndex (seatViewOne st socketId) st.seats 0
    ownerSet := st.ownerSocket ≠ none
    ownerSocket := st.ownerSocket
    dealer := st.dealer
    phase := st.phase
    community := st.community
    potTotal := st.potTotal
    currentTurnSeat := st.currentTurnSeat
    minimumRaise := st.minimumRaise
    smallBlind := SMALL_BLIND
    bigBlind := BIG_BLIND }

/-- The `hole` field the viewer sees for seat `i` (`none` when the seat is
empty or has no hole cards). -/
def holeSeenAt (st : GState) (socketId : Nat) (i : Nat) : Option HoleView :=
  match (publicStateForSocket st socketId).seats.getD i none with
  | some sv => sv.hole
  | none => none

end P0

namespace SJ

/-!
Embedding of `src/server.js` (the variant without side pots).  Only the parts
the claims exercise are embedded: the table state, the per-viewer projection
`publicTableStateForSocket`, and the synchronous part of the `action`
handler.  The street-advance body that the handler schedules with
`setTimeout(.., 400)` is represented by the `advanceScheduled` flag in the
handler's result.
-/

def MAX_SEATS : Nat := 6
def SMALL_BLIND : Nat := 10
def BIG_BLIND : Nat := 20

structure SPlayer where
  socketId : Nat
  username : String
  chips : Nat
deriving DecidableEq, Repr

/-- `t.phase`: the strings the code assigns are `'idle'`, `'preflop'`,
`'betting'`, `'showdown'` (the state comment also names `dealing`). -/
inductive SPhase
  | idle | dealing | preflop | betting | showdown
deriving DecidableEq, Repr

structure TState where
  owner : Option Nat
  seats : List (Option SPlayer)
  dealerIndex : Nat
  phase : SPhase
  deck : List Card
  community : List Card
  pot : Nat
  currentBets : List Nat
  currentPlayerIndex : Option Nat
  minimumRaise : Nat
  lastAggressorIndex : Option Nat
  folded : List Bool
  holeCards : List (Option (Card × Card))
  seatsInHand : List Nat
deriving DecidableEq, Repr

/-- One element of the `seats` view array of `publicTableStateForSocket`:
the hole cards are revealed only to the seat's own socket, in *every* phase;
everyone else sees `['??','??']`. -/
def seatViewOne (t : TState) (socketId : Nat) (idx : Nat) :
    Option SPlayer → Option P0.SeatView
  | none => none
  | some p =>
    let hole :=
      match t.holeCards.getD idx none with
      | some (c1, c2) =>
        if p.socketId = socketId then some (P0.HoleView.shown c1 c2)
        else some P0.HoleView.hidden
      | none => none
    some {
      username := p.username
      chips := p.chips
      seat := idx
      pid := 0
      contribution := 0
      currentBet := t.currentBets.getD idx 0
      folded := t.folded.getD idx false
      hole := hole }

structure STableView where
  owner : Option Nat
  seats : List (Option P0.SeatView)
  dealerIndex : Nat
  community : List Card
  pot : Nat
  phase : SPhase
  currentPlayerIndex : Option Nat
  minimumRaise : Nat
  smallBlind : Nat
  bigBlind : Nat
deriving DecidableEq, Repr

/-- `publicTableStateForSocket(socketId)` from `server.js`. -/
def publicTableStateForSocket (t : TState) (socketId : Nat) : STableView :=
  { owner := t.owner
    seats := P0.mapWithIndex (seatViewOne t socketId) t.seats 0
    dealerIndex := t.dealerIndex
    community := t.community
    pot := t.pot
    phase := t.phase
    currentPlayerIndex := t.currentPlayerIndex
    minimumRaise := t.minimumRaise
    smallBlind := SMALL_BLIND
    bigBlind := BIG_BLIND }

/-- The `hole` field viewer `socketId` sees for seat `i`. -/
def holeSeenAt (t : TState) (socketId : Nat) (i : Nat) : Option P0.HoleView :=
  match (publicTableStateForSocket t socketId).seats.getD i none with
  | some sv => sv.hole
  | none => none

/-! ### The `action` handler -/

/-- The `action` payload: `type ∈ {fold, check_call, bet_raise}`; anything
else is rejected as unknown. -/
inductive SActionType
  | fold | check_call | bet_raise | other (tag : String)
deriving DecidableEq, Repr

def seatLookup (t : TState) (socketId : Nat) : Option (Nat × SPlayer) :=
  (List.range MAX_SEATS).findSome? (fun i =>
    match t.seats.getD i none with
    | some p => if p.socketId = socketId then some (i, p) else none
    | none => none)

def highestBet (t : TState) : Nat := t.currentBets.foldr max 0

/-- `nextActive(fromIdx)`. -/
def nextActive (t : TState) (fromIdx : Nat) : Option Nat :=
  (List.range' 1 MAX_SEATS).findSome? (fun step =>
    let idx := (fromIdx + step) % MAX_SEATS
    match t.seats.getD idx none with
    | none => none
    | some _ => if t.folded.getD idx false then none else some idx)

/-- The synchronous body of `socket.on('action', ...)` from `server.js`.
Returns the ack result, the table state after the handler returns, and
whether the street-advance `setTimeout` was scheduled (`allEqual` held with
more than one seat left in the hand). -/
def performAction (t : TState) (socketId : Nat) (type_ : SActionType)
    (amount : Nat) : P0.ActRes × TState × Bool :=
  match seatLookup t socketId with
  | none => (.err "not seated", t, false)
  | some (seatIdx, p) =>
    if t.phase ≠ .betting then (.err "not betting", t, false)
    else if t.currentPlayerIndex ≠ some seatIdx then (.err "not your turn", t, false)
    else if t.folded.getD seatIdx false then (.err "already folded", t, false)
    else
      let highest := highestBet t
      let applied : Except String TState :=
        match type_ with
        | .fold =>
          .ok { t with
            folded := t.folded.set seatIdx true
            seatsInHand := t.seatsInHand.filter (fun i => i ≠ seatIdx) }
        | .check_call =>
          let toCall := highest - t.currentBets.getD seatIdx 0
          if toCall = 0 then .ok t
          else if p.chips < toCall then .error "insufficient chips to call"
          else .ok { t with
            seats := t.seats.set seatIdx (some { p with chips := p.chips - toCall })
            currentBets := t.currentBets.set seatIdx (t.currentBets.getD seatIdx 0 + toCall)
            pot := t.pot + toCall }
        | .bet_raise =>
          if amount = 0 then .error "invalid amount"
          else
            let toCall := highest - t.currentBets.getD seatIdx 0
            let totalPut := toCall + amount
            if p.chips < totalPut then .error "insufficient chips"
            else if amount < t.minimumRaise then
              .error ("raise too small (min " ++ toString t.minimumRaise ++ ")")
            else .ok { t with
              seats := t.seats.set seatIdx (some { p with chips := p.chips - totalPut })
              currentBets := t.currentBets.set seatIdx (t.currentBets.getD seatIdx 0 + totalPut)
              pot := t.pot + totalPut
              minimumRaise := amount
              lastAggressorIndex := some seatIdx }
        | .other _ => .error "unknown action"
      match applied with
      | .error e => (.err e, t, false)
      | .ok t1 =>
        let t2 := { t1 with currentPlayerIndex := nextActive t1 seatIdx }
        if t2.seatsInHand.length = 1 then
          -- early end: the last seat in hand is awarded the whole pot
          let winnerIdx := t2.seatsInHand.headD 0
          let t3 :=
            match t2.seats.getD winnerIdx none with
            | some w =>
              { t2 with
                seats := t2.seats.set winnerIdx (some { w with chips := w.chips + t2.pot })
                pot := 0
                phase := .showdown }
            | none => { t2 with pot := 0, phase := .showdown }
          (.ok, t3, false)
        else
          let active := t2.seatsInHand.filter (fun i => ! t2.folded.getD i false)
          let maxBet := highestBet t2
          let allEqual := active.all (fun idx => t2.currentBets.getD idx 0 = maxBet)
          (.ok, t2, allEqual)

end SJ

/-! ### Statement-side helpers and concrete scenarios -/

namespace P0

/-- The chips of the player at seat `i` (0 for an empty seat). -/
def chipsAt (st : GState) (i : Nat) : Nat :=
  match st.seats.getD i none with
  | some p => p.chips
  | none => 0

/-- The remaining-contribution array before the `k`-th pass of the
`buildPots` loop. -/
def remAfter (c : List Nat) : Nat → List Nat
  | 0 => c
  | k + 1 => remAfter (subtractLayer c (minPositive c)) k

end P0

/-- `[Ah, 2c, 3d, 4s, 5h, 9c, Kd]` — the wheel-straight scenario input. -/
def wheel7 : List Card :=
  [⟨12, .h⟩, ⟨0, .c⟩, ⟨1, .d⟩, ⟨2, .s⟩, ⟨3, .h⟩, ⟨7, .c⟩, ⟨11, .d⟩]

/-- `[2h, 3c, 4d, 5s, 6h, 9c, Kd]` — a 6-high straight. -/
def sixHigh7 : List Card :=
  [⟨0, .h⟩, ⟨1, .c⟩, ⟨2, .d⟩, ⟨3, .s⟩, ⟨4, .h⟩, ⟨7, .c⟩, ⟨11, .d⟩]

/-- `[2h, 4c, 6d, 8s, Tc, Jh, Kd]` — no pair, no straight, no flush. -/
def highCard7 : List Card :=
  [⟨0, .h⟩, ⟨2, .c⟩, ⟨4, .d⟩, ⟨6, .s⟩, ⟨8, .c⟩, ⟨9, .h⟩, ⟨11, .d⟩]

/-- Three seated players with stacks 100 / 1000 / 1000 and an idle table. -/
def c1Init : P0.GState :=
  { seats := [some ⟨11, "p0", 100, 0⟩, some ⟨12, "p1", 1000, 0⟩,
              some ⟨13, "p2", 1000, 0⟩, none, none, none]
    ownerSocket := some 11
    dealer := -1
    deck := []
    community := []
    phase := .idle
    contributions := List.replicate 6 0
    currentBets := List.replicate 6 0
    folded := List.replicate 6 false
    holeCards := List.replicate 6 none
    activeSeats := []
    currentTurnSeat := none
    minimumRaise := 20
    lastAggressor := none
    potTotal := 0 }

/-- A 14-card shuffled deck in draw order (enough for 6 hole cards and all
five community cards with burns). -/
def c1Deck : List Card :=
  [⟨0, .s⟩, ⟨0, .h⟩, ⟨1, .s⟩, ⟨1, .h⟩, ⟨2, .s⟩, ⟨2, .h⟩, ⟨3, .s⟩, ⟨3, .h⟩,
   ⟨4, .s⟩, ⟨4, .h⟩, ⟨5, .s⟩, ⟨5, .h⟩, ⟨6, .s⟩, ⟨6, .h⟩]

/-- Hand start: dealer 0, SB seat 1 (10), BB seat 2 (20), seat 0 to act. -/
def c1s0 := P0.startHand c1Init c1Deck
/-- Seat 0 goes all-in for its whole 100 stack. -/
def c1a1 := P0.performAction c1s0.2 11 ⟨.allin, 0⟩
/-- Seat 1 raises by 100 on top of the 90 to call. -/
def c1a2 := P0.performAction c1a1.2 12 ⟨.raise, 100⟩
/-- Seat 2 folds; the round completes and the flop is dealt. -/
def c1a3 := P0.performAction c1a2.2 13 ⟨.fold, 0⟩
/-- Seat 1 bets 50 into the side pot it alone contests; the turn is dealt. -/
def c1a4 := P0.performAction c1a3.2 12 ⟨.bet, 50⟩
/-- Seat 1 folds while facing no bet; only all-in seat 0 remains; river. -/
def c1a5 := P0.performAction c1a4.2 12 ⟨.fold, 0⟩
/-- Seat 0 checks; showdown runs and distributes the pots. -/
def c1a6 := P0.performAction c1a5.2 11 ⟨.check, 0⟩

/-- Two seated players with 500 each. -/
def c7Init : P0.GState :=
  { c1Init with
    seats := [some ⟨21, "q0", 500, 0⟩, some ⟨22, "q1", 500, 0⟩,
              none, none, none, none] }

/-- Heads-up hand start: dealer 0, SB seat 1, BB seat 0, seat 1 to act. -/
def c7s0 := P0.startHand c7Init c1Deck
/-- Seat 1 folds preflop, leaving seat 0 as the only non-folded seat. -/
def c7a1 := P0.performAction c7s0.2 22 ⟨.fold, 0⟩

/-- Four seated players; seat 0 has only 30 chips. -/
def c8Init : P0.GState :=
  { c1Init with
    seats := [some ⟨31, "r0", 30, 0⟩, some ⟨32, "r1", 1000, 0⟩,
              some ⟨33, "r2", 1000, 0⟩, some ⟨34, "r3", 1000, 0⟩, none, none] }

/-- Hand start: dealer 0, SB seat 1, BB seat 2, seat 3 to act. -/
def c8s0 := P0.startHand c8Init c1Deck
/-- Seat 3 raises by 80 to a total bet of 100: `minimumRaise` becomes 80 and
seat 3 is the aggressor. -/
def c8a1 := P0.performAction c8s0.2 34 ⟨.raise, 80⟩
/-- Seat 0 shoves its 30 remaining chips with 100 to call: a short all-in
that does not even complete the call. -/
def c8a2 := P0.performAction c8a1.2 31 ⟨.allin, 0⟩

/-- Two pots: the first has no eligible seat, the next is contested by
seat 0. -/
def c3Pots : List P0.Pot := [⟨100, []⟩, ⟨50, [0]⟩]

/-- Seat 0 holds a scored hand; nobody else does. -/
def c3Hands : P0.SeatHands := fun i =>
  if i = 0 then some ⟨[1, 5], "Pair"⟩ else none

/-- A showdown state in which dealt seat 1 has folded.  Seat 0 belongs to
socket 41 and seat 1 to socket 42. -/
def c5St : P0.GState :=
  { c1Init with
    seats := [some ⟨41, "s0", 100, 0⟩, some ⟨42, "s1", 100, 0⟩,
              none, none, none, none]
    phase := .showdown
    folded := [false, true, false, false, false, false]
    holeCards := [some (⟨12, .s⟩, ⟨11, .s⟩), some (⟨10, .h⟩, ⟨9, .d⟩),
                  none, none, none, none]
    activeSeats := [0, 1] }

/-- A `server.js` table mid-hand: seats 0 and 1 in the hand, pot 30, seat 1
to act. -/
def sjT7 : SJ.TState :=
  { owner := some 51
    seats := [some ⟨51, "t0", 480⟩, some ⟨52, "t1", 490⟩, none, none, none, none]
    dealerIndex := 0
    phase := .betting
    deck := []
    community := []
    pot := 30
    currentBets := [20, 10, 0, 0, 0, 0]
    currentPlayerIndex := some 1
    minimumRaise := 20
    lastAggressorIndex := none
    folded := List.replicate 6 false
    holeCards := [some (⟨0, .s⟩, ⟨1, .s⟩), some (⟨2, .s⟩, ⟨3, .s⟩),
                  none, none, none, none]
    seatsInHand := [1, 0] }

/-- The same table as `c5St` but still in the betting phase. -/
def c4St : P0.GState := { c5St with phase := P0.Phase.betting }

/-- The `server.js` table `sjT7` at showdown. -/
def sjT7sd : SJ.TState := { sjT7 with phase := SJ.SPhase.showdown }

/-! ## Theorems -/

namespace P0

theorem foldl_min_mem (v : Nat) (vs : List Nat) : vs.foldl Nat.min v ∈ v :: vs := by
  induction vs generalizing v with
  | nil => simp [List.foldl]
  | cons w ws ih =>
    simp only [List.foldl]
    rcases List.mem_cons.mp (ih (Nat.min v w)) with h' | h'
    · rw [h']
      have hvw : Nat.min v w = v ∨ Nat.min v w = w := by
        rcases Nat.le_total v w with hle | hle
        · exact Or.inl (Nat.min_eq_left hle)
        · exact Or.inr (Nat.min_eq_right hle)
      rcases hvw with h2 | h2 <;> rw [h2]
      · exact List.mem_cons_self _ _
      · exact List.mem_cons_of_mem _ (List.mem_cons_self _ _)
    · exact List.mem_cons_of_mem _ (List.mem_cons_of_mem _ h')

theorem foldl_min_le (v : Nat) (vs : List Nat) :
    ∀ w ∈ v :: vs, vs.foldl Nat.min v ≤ w := by
  induction vs generalizing v with
  | nil =>
    intro w hw
    rcases List.mem_cons.mp hw with h | h
    · simpa [List.foldl] using h.ge
    · simp at h
  | cons u us ih =>
    intro w hw
    simp only [List.foldl]
    have hmin1 : Nat.min v u ≤ v := Nat.min_le_left _ _
    have hmin2 : Nat.min v u ≤ u := Nat.min_le_right _ _
    have h0 := ih (Nat.min v u) (Nat.min v u) (List.mem_cons_self _ _)
    rcases List.mem_cons.mp hw with h | h
    · subst h
      exact le_trans h0 hmin1
    · rcases List.mem_cons.mp h with h' | h'
      · subst h'
        exact le_trans h0 hmin2
      · exact ih (Nat.min v u) w (List.mem_cons_of_mem _ h')

theorem minPositive_mem {remaining : List Nat}
    (h : remaining.filter (fun v => 0 < v) ≠ []) :
    minPositive remaining ∈ remaining.filter (fun v => 0 < v) := by
  unfold minPositive
  cases hf : remaining.filter (fun v => 0 < v) with
  | nil => exact absurd hf h
  | cons v vs => simpa [hf] using foldl_min_mem v vs

theorem minPositive_pos {remaining : List Nat}
    (h : remaining.filter (fun v => 0 < v) ≠ []) :
    0 < minPositive remaining := by
  have hm := minPositive_mem h
  simpa using (List.mem_filter.mp hm).2

theorem minPositive_le {remaining : List Nat} {v : Nat}
    (hv : v ∈ remaining) (hpos : 0 < v) : minPositive remaining ≤ v := by
  have hvf : v ∈ remaining.filter (fun w => 0 < w) :=
    List.mem_filter.mpr ⟨hv, by simpa using hpos⟩
  unfold minPositive
  cases hf : remaining.filter (fun w => 0 < w) with
  | nil => simp [hf] at hvf
  | cons u us =>
    rw [hf] at hvf
    exact foldl_min_le u us v hvf

theorem sum_map_lt {l : List Nat} {f : Nat → Nat}
    (hle : ∀ v ∈ l, f v ≤ v) (hlt : ∃ v ∈ l, f v < v) :
    (l.map f).sum < l.sum := by
  induction l with
  | nil => simp at hlt
  | cons v vs ih =>
    rcases hlt with ⟨w, hw, hwlt⟩
    rcases List.mem_cons.mp hw with h | h
    · subst h
      have hrest : (vs.map f).sum ≤ vs.sum := by
        clear ih hw
        induction vs with
        | nil => simp
        | cons u us ih' =>
          simp only [List.map_cons, List.sum_cons]
          have h1 := hle u (List.mem_cons_of_mem _ (List.mem_cons_self _ _))
          have h2 : (us.map f).sum ≤ us.sum := by
            apply ih'
            intro x hx
            exact hle x (by
              rcases List.mem_cons.mp hx with h' | h'
              · exact h' ▸ List.mem_cons_self _ _
              · exact List.mem_cons_of_mem _ (List.mem_cons_of_mem _ h'))
          exact Nat.add_le_add h1 h2
      simp only [List.map_cons, List.sum_cons]
      have := hle w (List.mem_cons_self _ _)
      omega
    · have hhead : f v ≤ v := hle v (List.mem_cons_self _ _)
      have hrest : (vs.map f).sum < vs.sum :=
        ih (fun x hx => hle x (List.mem_cons_of_mem _ hx)) ⟨w, h, hwlt⟩
      simp only [List.map_cons, List.sum_cons]
      omega

theorem exists_pos_of_positiveSeats_ne_nil {remaining : List Nat}
    (h : positiveSeats remaining ≠ []) : ∃ v ∈ remaining, 0 < v := by
  unfold positiveSeats at h
  rcases List.exists_mem_of_ne_nil _ h with ⟨i, hi⟩
  have hmem := List.mem_filter.mp hi
  have hlt : i < remaining.length := List.mem_range.mp hmem.1
  have hpos : 0 < remaining.getD i 0 := by simpa using hmem.2
  refine ⟨remaining.getD i 0, ?_, hpos⟩
  rw [List.getD_eq_getElem remaining 0 hlt]
  exact List.getElem_mem hlt

theorem filter_pos_ne_nil_of_positiveSeats {remaining : List Nat}
    (h : positiveSeats remaining ≠ []) :
    remaining.filter (fun v => 0 < v) ≠ [] := by
  rcases exists_pos_of_positiveSeats_ne_nil h with ⟨v, hv, hpos⟩
  intro hnil
  have : v ∈ remaining.filter (fun w => 0 < w) :=
    List.mem_filter.mpr ⟨hv, by simpa using hpos⟩
  simp [hnil] at this

theorem subtractLayer_sum_lt {remaining : List Nat}
    (h : positiveSeats remaining ≠ []) :
    (subtractLayer remaining (minPositive remaining)).sum < remaining.sum := by
  have hm : 0 < minPositive remaining :=
    minPositive_pos (filter_pos_ne_nil_of_positiveSeats h)
  rcases exists_pos_of_positiveSeats_ne_nil h with ⟨v, hv, hpos⟩
  apply sum_map_lt
  · intro w _
    dsimp only
    split
    · exact Nat.sub_le _ _
    · exact Nat.le_refl _
  · refine ⟨v, hv, ?_⟩
    dsimp only
    rw [if_pos hpos]
    omega

theorem sum_pos_of_positiveSeats_ne_nil {remaining : List Nat}
    (h : positiveSeats remaining ≠ []) : 0 < remaining.sum := by
  rcases exists_pos_of_positiveSeats_ne_nil h with ⟨v, hv, hpos⟩
  calc 0 < v := hpos
    _ ≤ remaining.sum := List.single_le_sum (fun _ _ => Nat.zero_le _) v hv


theorem buildPotsLoop_congr {activeMask : List Bool} :
    ∀ (fuel1 fuel2 : Nat) (remaining : List Nat),
      remaining.sum ≤ fuel1 → remaining.sum ≤ fuel2 →
      buildPotsLoop activeMask fuel1 remaining = buildPotsLoop activeMask fuel2 remaining := by
  intro fuel1
  induction fuel1 with
  | zero =>
    intro fuel2 remaining h1 h2
    have hnil : positiveSeats remaining = [] := by
      by_contra hne
      have := sum_pos_of_positiveSeats_ne_nil hne
      omega
    cases fuel2 with
    | zero => rfl
    | succ f => simp [buildPotsLoop, hnil]
  | succ f1 ih =>
    intro fuel2 remaining h1 h2
    by_cases hnil : positiveSeats remaining = []
    · cases fuel2 with
      | zero => simp [buildPotsLoop, hnil]
      | succ f2 => simp [buildPotsLoop, hnil]
    · have hlt := subtractLayer_sum_lt hnil
      have hpos := sum_pos_of_positiveSeats_ne_nil hnil
      cases fuel2 with
      | zero => omega
      | succ f2 =>
        simp only [buildPotsLoop, if_neg hnil]
        rw [ih f2 (subtractLayer remaining (minPositive remaining)) (by omega) (by omega)]

end P0

/-! ### C9 — the wheel straight -/

/-- C9: `evaluateBest7` scores the wheel: on `[Ah, 2c, 3d, 4s, 5h, 9c, Kd]`
it returns category 4 (Straight) with straight-high index 3 (the 5);
moreover any hand scored as the wheel `[4, 3]` compares strictly below any
hand scored as a 6-high straight `[4, 4]`, and any hand whose score category
is below 4 compares strictly below a wheel. -/
theorem claimC9_wheel_straight :
    P0.evaluateBest7 wheel7 = ⟨[4, 3], "Straight"⟩ ∧
    (∀ xs ys : List Card,
      (P0.evaluateBest7 xs).score = [4, 3] →
      (P0.evaluateBest7 ys).score = [4, 4] →
      P0.compareScoreArrays (P0.evaluateBest7 xs).score (P0.evaluateBest7 ys).score = -1) ∧
    (∀ (ys : List Card) (c : Nat) (rest : List Nat),
      (P0.evaluateBest7 ys).score = c :: rest →
      c < 4 →
      ∀ xs : List Card, (P0.evaluateBest7 xs).score = [4, 3] →
      P0.compareScoreArrays (P0.evaluateBest7 ys).score (P0.evaluateBest7 xs).score = -1) := by
  refine ⟨by decide, ?_, ?_⟩
  · intro xs ys hx hy
    rw [hx, hy]
    decide
  · intro ys c rest hy hc xs hx
    rw [hx, hy]
    show P0.compareScoreArrays (c :: rest) [4, 3] = -1
    simp only [P0.compareScoreArrays, List.headD_cons]
    rw [if_neg (by omega), if_pos hc]

/-- Witness for C9 at concrete hands: the wheel loses to the 6-high straight
`sixHigh7` and beats the king-high `highCard7`. -/
theorem claimC9_wheel_straight_witness :
    P0.compareScoreArrays (P0.evaluateBest7 wheel7).score (P0.evaluateBest7 sixHigh7).score = -1 ∧
    P0.compareScoreArrays (P0.evaluateBest7 highCard7).score (P0.evaluateBest7 wheel7).score = -1 :=
  ⟨claimC9_wheel_straight.2.1 wheel7 sixHigh7 (by decide) (by decide),
   claimC9_wheel_straight.2.2 highCard7 0 [11, 9, 8, 6, 4] (by decide) (by decide)
     wheel7 (by decide)⟩

/-! ### View projection lemmas -/

theorem getD_mapWithIndex {γ β : Type} (f : Nat → Option γ → Option β)
    (hf : ∀ j, f j none = none) :
    ∀ (l : List (Option γ)) (k i : Nat),
      (P0.mapWithIndex f l k).getD i none = f (k + i) (l.getD i none) := by
  intro l
  induction l with
  | nil =>
    intro k i
    simp [P0.mapWithIndex, hf]
  | cons a rest ih =>
    intro k i
    cases i with
    | zero => simp [P0.mapWithIndex]
    | succ i =>
      simp only [P0.mapWithIndex, List.getD_cons_succ]
      rw [ih (k + 1) i]
      congr 1
      omega

/-! ### C4 — hole-card privacy outside showdown -/

/-- C4: in any phase other than showdown, the snapshot a viewer receives
carries no real hole-card values for a seat that viewer does not own: the
seat's `hole` field is absent or the opaque `['??','??']` placeholder pair.
This holds for `publicStateForSocket` of `part_000` and for
`publicTableStateForSocket` of `server.js`. -/
theorem claimC4_hole_card_privacy :
    (∀ (st : P0.GState) (viewer i : Nat) (p : P0.Player),
      st.phase ≠ P0.Phase.showdown →
      st.seats.getD i none = some p →
      p.socketId ≠ viewer →
      P0.holeSeenAt st viewer i = none ∨
        P0.holeSeenAt st viewer i = some P0.HoleView.hidden) ∧
    (∀ (t : SJ.TState) (viewer i : Nat) (p : SJ.SPlayer),
      t.phase ≠ SJ.SPhase.showdown →
      t.seats.getD i none = some p →
      p.socketId ≠ viewer →
      SJ.holeSeenAt t viewer i = none ∨
        SJ.holeSeenAt t viewer i = some P0.HoleView.hidden) := by
  constructor
  · intro st viewer i p hph hseat hsock
    unfold P0.holeSeenAt P0.publicStateForSocket
    dsimp only
    rw [getD_mapWithIndex (P0.seatViewOne st viewer) (fun j => rfl) st.seats 0 i]
    simp only [Nat.zero_add]
    rw [hseat]
    unfold P0.seatViewOne
    dsimp only
    cases hh : st.holeCards.getD i none with
    | none => left; rfl
    | some cc =>
      right
      obtain ⟨c1, c2⟩ := cc
      have hcond : (decide (p.socketId = viewer) ||
          decide (st.phase = P0.Phase.showdown)) = false := by
        simp [hsock, hph]
      simp [hcond]
  · intro t viewer i p hph hseat hsock
    unfold SJ.holeSeenAt SJ.publicTableStateForSocket
    dsimp only
    rw [getD_mapWithIndex (SJ.seatViewOne t viewer) (fun j => rfl) t.seats 0 i]
    simp only [Nat.zero_add]
    rw [hseat]
    unfold SJ.seatViewOne
    dsimp only
    cases hh : t.holeCards.getD i none with
    | none => left; rfl
    | some cc =>
      right
      obtain ⟨c1, c2⟩ := cc
      simp [hsock]

/-- Witness for C4: in the betting-phase table `c4St`, viewer 99 sees only a
placeholder for seat 0's cards, and likewise on the `server.js` table. -/
theorem claimC4_hole_card_privacy_witness :
    (P0.holeSeenAt c4St 99 0 = none ∨
      P0.holeSeenAt c4St 99 0 = some P0.HoleView.hidden) ∧
    (SJ.holeSeenAt sjT7 99 0 = none ∨
      SJ.holeSeenAt sjT7 99 0 = some P0.HoleView.hidden) :=
  ⟨claimC4_hole_card_privacy.1 c4St 99 0 ⟨41, "s0", 100, 0⟩
      (by decide) (by decide) (by decide),
   claimC4_hole_card_privacy.2 sjT7 99 0 ⟨51, "t0", 480⟩
      (by decide) (by decide) (by decide)⟩

/-! ### C5 — what showdown actually reveals -/

/-- Counterexample to C5: in the showdown state `c5St`, seat 1 is dealt and
folded, yet viewer 99 — who does not own the seat (socket 42 does) — is shown
seat 1's real hole cards, so a folded seat's cards do not stay hidden. -/
theorem claimC5_counterexample :
    c5St.phase = P0.Phase.showdown ∧
    c5St.folded.getD 1 false = true ∧
    c5St.seats.getD 1 none = some ⟨42, "s1", 100, 0⟩ ∧
    (42 : Nat) ≠ 99 ∧
    c5St.holeCards.getD 1 none = some (⟨10, .h⟩, ⟨9, .d⟩) ∧
    P0.holeSeenAt c5St 99 1 = some (P0.HoleView.shown ⟨10, .h⟩ ⟨9, .d⟩) := by
  decide

/-- C5 as amended: at showdown, `part_000` reveals the real hole cards of
*every* occupied seat that holds cards — folded or not — to every viewer,
while `server.js` keeps every other seat's cards as placeholders even at
showdown. -/
theorem claimC5_showdown_reveal :
    (∀ (st : P0.GState) (viewer i : Nat) (p : P0.Player) (c1 c2 : Card),
      st.phase = P0.Phase.showdown →
      st.seats.getD i none = some p →
      st.holeCards.getD i none = some (c1, c2) →
      P0.holeSeenAt st viewer i = some (P0.HoleView.shown c1 c2)) ∧
    (∀ (t : SJ.TState) (viewer i : Nat) (p : SJ.SPlayer) (c1 c2 : Card),
      t.phase = SJ.SPhase.showdown →
      t.seats.getD i none = some p →
      p.socketId ≠ viewer →
      t.holeCards.getD i none = some (c1, c2) →
      SJ.holeSeenAt t viewer i = some P0.HoleView.hidden) := by
  constructor
  · intro st viewer i p c1 c2 hph hseat hh
    unfold P0.holeSeenAt P0.publicStateForSocket
    dsimp only
    rw [getD_mapWithIndex (P0.seatViewOne st viewer) (fun j => rfl) st.seats 0 i]
    simp only [Nat.zero_add]
    rw [hseat]
    unfold P0.seatViewOne
    dsimp only
    simp only [hh]
    simp [hph]
  · intro t viewer i p c1 c2 hph hseat hsock hh
    unfold SJ.holeSeenAt SJ.publicTableStateForSocket
    dsimp only
    rw [getD_mapWithIndex (SJ.seatViewOne t viewer) (fun j => rfl) t.seats 0 i]
    simp only [Nat.zero_add]
    rw [hseat]
    unfold SJ.seatViewOne
    dsimp only
    simp only [hh]
    simp [hsock]

/-- Witness for C5 (amended): at the showdown tables, viewer 99 is shown
folded seat 1's real cards by `part_000`, and still only a placeholder by
`server.js`. -/
theorem claimC5_showdown_reveal_witness :
    P0.holeSeenAt c5St 99 1 = some (P0.HoleView.shown ⟨10, .h⟩ ⟨9, .d⟩) ∧
    SJ.holeSeenAt sjT7sd 99 0 = some P0.HoleView.hidden :=
  ⟨claimC5_showdown_reveal.1 c5St 99 1 ⟨42, "s1", 100, 0⟩ ⟨10, .h⟩ ⟨9, .d⟩
      (by decide) (by decide) (by decide),
   claimC5_showdown_reveal.2 sjT7sd 99 0 ⟨51, "t0", 480⟩ ⟨0, .s⟩ ⟨1, .s⟩
      (by decide) (by decide) (by decide) (by decide)⟩

/-! ### C3 — pots with no eligible seats -/

namespace P0

theorem distributeStep_empty_eligible (hands : SeatHands) (results : Nat → Nat)
    (p : Pot) (hp : p.eligibleSeats = []) :
    distributeStep hands results p = results := by
  unfold distributeStep
  rw [hp]
  rfl

theorem pos_getD_subtractLayer {remaining : List Nat} {m : Nat} (i : Nat)
    (h : 0 < (subtractLayer remaining m).getD i 0) : 0 < remaining.getD i 0 := by
  unfold subtractLayer at h
  rw [List.getD_eq_getElem?_getD] at h ⊢
  rw [List.getElem?_map] at h
  cases hv : remaining[i]? with
  | none => simp [hv] at h
  | some v =>
    rw [hv] at h
    simp only [Option.map_some', Option.getD_some] at h
    simp only [Option.getD_some]
    by_cases h0 : 0 < v
    · exact h0
    · rw [if_neg h0] at h
      exact h

theorem length_subtractLayer (remaining : List Nat) (m : Nat) :
    (subtractLayer remaining m).length = remaining.length :=
  List.length_map ..

theorem positiveSeats_subtractLayer_subset (remaining : List Nat) (m : Nat) :
    positiveSeats (subtractLayer remaining m) ⊆ positiveSeats remaining := by
  intro i hi
  unfold positiveSeats at hi ⊢
  rw [List.mem_filter] at hi ⊢
  obtain ⟨hrange, hpos⟩ := hi
  rw [List.mem_range, length_subtractLayer] at hrange
  refine ⟨List.mem_range.mpr hrange, ?_⟩
  have hpos2 : 0 < (subtractLayer remaining m).getD i 0 := by simpa using hpos
  have hp := pos_getD_subtractLayer i hpos2
  simpa using hp

theorem buildPotsLoop_eligible_subset (mask : List Bool) :
    ∀ (fuel : Nat) (rem : List Nat) (p : Pot), p ∈ buildPotsLoop mask fuel rem →
      p.eligibleSeats ⊆ (positiveSeats rem).filter (fun i => mask.getD i false) := by
  intro fuel
  induction fuel with
  | zero => intro rem p hp; simp [buildPotsLoop] at hp
  | succ f ih =>
    intro rem p hp
    by_cases hnil : positiveSeats rem = []
    · simp [buildPotsLoop, hnil] at hp
    · simp only [buildPotsLoop, if_neg hnil] at hp
      rcases List.mem_cons.mp hp with h | h
      · subst h
        exact fun x hx => hx
      · intro x hx
        have h2 := ih _ p h hx
        rw [List.mem_filter] at h2 ⊢
        exact ⟨positiveSeats_subtractLayer_subset _ _ h2.1, h2.2⟩

theorem buildPotsLoop_pairwise (mask : List Bool) :
    ∀ (fuel : Nat) (rem : List Nat),
      List.Pairwise (fun p q => q.eligibleSeats ⊆ p.eligibleSeats)
        (buildPotsLoop mask fuel rem) := by
  intro fuel
  induction fuel with
  | zero => intro rem; simp [buildPotsLoop]
  | succ f ih =>
    intro rem
    by_cases hnil : positiveSeats rem = []
    · simp [buildPotsLoop, hnil]
    · simp only [buildPotsLoop, if_neg hnil]
      constructor
      · intro q hq x hx
        have h2 := buildPotsLoop_eligible_subset mask f _ q hq hx
        rw [List.mem_filter] at h2
        rw [List.mem_filter]
        exact ⟨positiveSeats_subtractLayer_subset _ _ h2.1, h2.2⟩
      · exact ih _

end P0

/-- Counterexample to C3: with pots `[{100, []}, {50, [0]}]` and a scored
hand for seat 0, `distributePots` awards seat 0 only the 50 of the second
pot: the 100 of the empty-eligible first pot is not carried forward to the
next pot with eligible seats — it is forfeited even though such a pot
exists. -/
theorem claimC3_counterexample :
    (c3Pots.map P0.Pot.amount).sum = 150 ∧
    (c3Pots.getD 0 ⟨0, []⟩).eligibleSeats = [] ∧
    (c3Pots.getD 1 ⟨0, []⟩).eligibleSeats = [0] ∧
    (c3Hands 0).isSome = true ∧
    P0.distributePots c3Pots c3Hands 0 = 50 ∧
    P0.distributePots c3Pots c3Hands 0 ≠ 150 := by
  decide

/-- C3 as amended: a pot with no eligible seats contributes nothing to any
award — its amount is dropped outright, whether or not a later pot has
eligible seats.  For the pots `buildPots` produces this coincides with the
spec's carry-forward rule, because eligible sets only shrink from one pot
layer to the next: once a layer has no eligible seat, no later layer has
one either. -/
theorem claimC3_empty_pot_forfeited :
    (∀ (hands : P0.SeatHands) (pots1 pots2 : List P0.Pot) (p : P0.Pot),
      p.eligibleSeats = [] →
      P0.distributePots (pots1 ++ p :: pots2) hands =
        P0.distributePots (pots1 ++ pots2) hands) ∧
    (∀ (contribs : List Nat) (mask : List Bool),
      List.Pairwise (fun p q => q.eligibleSeats ⊆ p.eligibleSeats)
        (P0.buildPots contribs mask)) := by
  constructor
  · intro hands pots1 pots2 p hp
    unfold P0.distributePots
    rw [List.foldl_append, List.foldl_append]
    simp only [List.foldl_cons]
    rw [P0.distributeStep_empty_eligible hands _ p hp]
  · intro contribs mask
    exact P0.buildPotsLoop_pairwise mask _ contribs

/-- Witness for C3 (amended): dropping the concrete empty-eligible pot does
not change the distribution, and the pots built from `[100, 250, 20]` have
shrinking eligible sets. -/
theorem claimC3_empty_pot_forfeited_witness :
    P0.distributePots ([] ++ P0.Pot.mk 100 [] :: [P0.Pot.mk 50 [0]]) c3Hands =
      P0.distributePots ([] ++ [P0.Pot.mk 50 [0]]) c3Hands ∧
    List.Pairwise (fun p q => q.eligibleSeats ⊆ p.eligibleSeats)
      (P0.buildPots [100, 250, 20] [true, false, false]) :=
  ⟨claimC3_empty_pot_forfeited.1 c3Hands [] [P0.Pot.mk 50 [0]] (P0.Pot.mk 100 []) rfl,
   claimC3_empty_pot_forfeited.2 [100, 250, 20] [true, false, false]⟩

/-! ### C2 — buildPots soundness -/

namespace P0

theorem positiveSeats_length (l : List Nat) :
    (positiveSeats l).length = (l.filter (fun v => 0 < v)).length := by
  induction l with
  | nil => rfl
  | cons v t ih =>
    unfold positiveSeats at ih ⊢
    have hcomp : ((fun i => decide (0 < (v :: t)[i]?.getD 0)) ∘ Nat.succ)
        = (fun i => decide (0 < t.getD i 0)) := by
      funext i
      simp [Function.comp, List.getD_eq_getElem?_getD]
    by_cases h0 : 0 < v <;>
      (simp [List.range_succ_eq_map, List.filter_cons, h0, List.filter_map, hcomp];
        simpa [List.getD_eq_getElem?_getD] using ih)

theorem sum_subtractLayer : ∀ (rem : List Nat) (m : Nat),
    (∀ v ∈ rem, 0 < v → m ≤ v) →
    (subtractLayer rem m).sum + m * (rem.filter (fun v => 0 < v)).length = rem.sum := by
  intro rem
  induction rem with
  | nil => intro m _; simp [subtractLayer]
  | cons v t ih =>
    intro m hle
    have iht := ih m (fun w hw hpos => hle w (List.mem_cons_of_mem _ hw) hpos)
    unfold subtractLayer at iht ⊢
    by_cases h0 : 0 < v
    · have hmv := hle v (List.mem_cons_self _ _) h0
      simp only [List.map_cons, List.sum_cons]
      rw [List.filter_cons_of_pos (by simpa using h0), List.length_cons,
        Nat.mul_succ, if_pos h0]
      omega
    · simp only [List.map_cons, List.sum_cons]
      rw [List.filter_cons_of_neg (by simpa using h0), if_neg h0]
      omega

theorem sum_eq_zero_of_positiveSeats_nil {rem : List Nat}
    (h : positiveSeats rem = []) : rem.sum = 0 := by
  apply List.sum_eq_zero
  intro x hx
  by_contra hne
  have hpos : 0 < x := Nat.pos_of_ne_zero hne
  obtain ⟨i, hlt, hget⟩ := List.mem_iff_getElem.mp hx
  have hgd : rem.getD i 0 = x := by rw [List.getD_eq_getElem rem 0 hlt, hget]
  have hmem : i ∈ positiveSeats rem := by
    unfold positiveSeats
    rw [List.mem_filter]
    exact ⟨List.mem_range.mpr hlt, by rw [hgd]; exact decide_eq_true hpos⟩
  simp [h] at hmem

theorem buildPotsLoop_amount_sum (mask : List Bool) :
    ∀ (fuel : Nat) (rem : List Nat), rem.sum ≤ fuel →
      ((buildPotsLoop mask fuel rem).map Pot.amount).sum = rem.sum := by
  intro fuel
  induction fuel with
  | zero =>
    intro rem h
    simp only [buildPotsLoop, List.map_nil, List.sum_nil]
    omega
  | succ f ih =>
    intro rem h
    by_cases hnil : positiveSeats rem = []
    · simp [buildPotsLoop, hnil, sum_eq_zero_of_positiveSeats_nil hnil]
    · have hmle : ∀ v ∈ rem, 0 < v → minPositive rem ≤ v :=
        fun v hv hp => minPositive_le hv hp
      have hsub := sum_subtractLayer rem (minPositive rem) hmle
      have hlt := subtractLayer_sum_lt hnil
      simp only [buildPotsLoop, if_neg hnil, List.map_cons, List.sum_cons]
      rw [ih _ (by omega), positiveSeats_length]
      omega

theorem buildPotsLoop_get? (mask : List Bool) :
    ∀ (fuel : Nat) (rem : List Nat), rem.sum ≤ fuel → ∀ (k : Nat) (p : Pot),
      (buildPotsLoop mask fuel rem).get? k = some p →
      p.amount = minPositive (remAfter rem k) * (positiveSeats (remAfter rem k)).length ∧
      p.eligibleSeats =
        (positiveSeats (remAfter rem k)).filter (fun i => mask.getD i false) := by
  intro fuel
  induction fuel with
  | zero => intro rem h k p hp; simp [buildPotsLoop] at hp
  | succ f ih =>
    intro rem h k p hp
    by_cases hnil : positiveSeats rem = []
    · simp [buildPotsLoop, hnil] at hp
    · simp only [buildPotsLoop, if_neg hnil] at hp
      cases k with
      | zero =>
        have hpe : some (Pot.mk (minPositive rem * (positiveSeats rem).length)
            ((positiveSeats rem).filter (fun i => mask.getD i false))) = some p := hp
        have := Option.some.inj hpe
        subst this
        exact ⟨rfl, rfl⟩
      | succ k =>
        have hlt := subtractLayer_sum_lt hnil
        have hres := ih (subtractLayer rem (minPositive rem)) (by omega) k p
          (by simpa using hp)
        simpa [remAfter] using hres

theorem buildPotsLoop_eligible_mem (mask : List Bool) :
    ∀ (fuel : Nat) (rem : List Nat) (p : Pot), p ∈ buildPotsLoop mask fuel rem →
      ∀ i ∈ p.eligibleSeats, mask.getD i false = true ∧ 0 < rem.getD i 0 := by
  intro fuel
  induction fuel with
  | zero => intro rem p hp; simp [buildPotsLoop] at hp
  | succ f ih =>
    intro rem p hp i hi
    by_cases hnil : positiveSeats rem = []
    · simp [buildPotsLoop, hnil] at hp
    · simp only [buildPotsLoop, if_neg hnil] at hp
      rcases List.mem_cons.mp hp with h | h
      · subst h
        rw [List.mem_filter] at hi
        have h1 := hi.1
        unfold positiveSeats at h1
        rw [List.mem_filter] at h1
        refine ⟨by simpa using hi.2, by simpa using h1.2⟩
      · have hres := ih _ p h i hi
        exact ⟨hres.1, pos_getD_subtractLayer i hres.2⟩

end P0

/-- C2: for every contributions array and eligibility mask, the pots built
by `buildPots` (a) have amounts summing to the total contributions, (b) have
the `k`-th pot's amount equal to that layer's minimum positive remaining
contribution times the number of seats still contributing, with the eligible
seats the mask-true subset of those contributors, and (c) every eligible
seat of every pot is mask-true and actually contributed. -/
theorem claimC2_buildPots_sound :
    (∀ (contribs : List Nat) (mask : List Bool),
      ((P0.buildPots contribs mask).map P0.Pot.amount).sum = contribs.sum) ∧
    (∀ (contribs : List Nat) (mask : List Bool) (k : Nat) (p : P0.Pot),
      (P0.buildPots contribs mask).get? k = some p →
      p.amount = P0.minPositive (P0.remAfter contribs k) *
          (P0.positiveSeats (P0.remAfter contribs k)).length ∧
      p.eligibleSeats =
        (P0.positiveSeats (P0.remAfter contribs k)).filter
          (fun i => mask.getD i false)) ∧
    (∀ (contribs : List Nat) (mask : List Bool) (p : P0.Pot),
      p ∈ P0.buildPots contribs mask →
      ∀ i ∈ p.eligibleSeats, mask.getD i false = true ∧ 0 < contribs.getD i 0) :=
  ⟨fun contribs mask => P0.buildPotsLoop_amount_sum mask contribs.sum contribs (Nat.le_refl _),
   fun contribs mask k p hp =>
     P0.buildPotsLoop_get? mask contribs.sum contribs (Nat.le_refl _) k p hp,
   fun contribs mask p hp i hi =>
     P0.buildPotsLoop_eligible_mem mask contribs.sum contribs p hp i hi⟩

/-- Witness for C2 at `contribs = [100, 250, 20]`, `mask = [true, false,
false]`: the pots are `[{60,[0]}, {160,[0]}, {150,[]}]`. -/
theorem claimC2_buildPots_sound_witness :
    ((P0.buildPots [100, 250, 20] [true, false, false]).map P0.Pot.amount).sum = 370 ∧
    (P0.Pot.mk 160 [0]).amount =
      P0.minPositive (P0.remAfter [100, 250, 20] 1) *
        (P0.positiveSeats (P0.remAfter [100, 250, 20] 1)).length ∧
    ((0 : Nat) < [(100 : Nat), 250, 20].getD 0 0) :=
  ⟨by
    have h := claimC2_buildPots_sound.1 [100, 250, 20] [true, false, false]
    simpa using h,
   (claimC2_buildPots_sound.2.1 [100, 250, 20] [true, false, false] 1
      (P0.Pot.mk 160 [0]) (by decide)).1,
   (claimC2_buildPots_sound.2.2 [100, 250, 20] [true, false, false]
      (P0.Pot.mk 60 [0]) (by decide) 0 (by decide)).2⟩

/-! ### C10 — termination of the pot-builder loop -/

namespace P0

theorem posVals_card_lt {rem : List Nat} (hnil : positiveSeats rem ≠ []) :
    ((subtractLayer rem (minPositive rem)).toFinset.filter (fun v => 0 < v)).card <
      (rem.toFinset.filter (fun v => 0 < v)).card := by
  set m := minPositive rem with hm
  have hmflt : m ∈ rem.filter (fun v => 0 < v) :=
    minPositive_mem (filter_pos_ne_nil_of_positiveSeats hnil)
  rw [List.mem_filter] at hmflt
  have hmS : m ∈ rem.toFinset.filter (fun v => 0 < v) := by
    rw [Finset.mem_filter, List.mem_toFinset]
    exact ⟨hmflt.1, by simpa using hmflt.2⟩
  have hsub : (subtractLayer rem m).toFinset.filter (fun v => 0 < v) ⊆
      ((rem.toFinset.filter (fun v => 0 < v)).erase m).image (fun v => v - m) := by
    intro w hw
    rw [Finset.mem_filter, List.mem_toFinset] at hw
    obtain ⟨hwmem, hwpos⟩ := hw
    unfold subtractLayer at hwmem
    rw [List.mem_map] at hwmem
    obtain ⟨v, hv, hvw⟩ := hwmem
    have hwpos2 : 0 < w := by simpa using hwpos
    by_cases h0 : 0 < v
    · rw [if_pos h0] at hvw
      rw [Finset.mem_image]
      refine ⟨v, ?_, hvw⟩
      rw [Finset.mem_erase, Finset.mem_filter, List.mem_toFinset]
      exact ⟨by omega, hv, by simpa using h0⟩
    · rw [if_neg h0] at hvw
      omega
  calc ((subtractLayer rem m).toFinset.filter (fun v => 0 < v)).card
      ≤ (((rem.toFinset.filter (fun v => 0 < v)).erase m).image (fun v => v - m)).card :=
        Finset.card_le_card hsub
    _ ≤ ((rem.toFinset.filter (fun v => 0 < v)).erase m).card := Finset.card_image_le
    _ = (rem.toFinset.filter (fun v => 0 < v)).card - 1 := Finset.card_erase_of_mem hmS
    _ < (rem.toFinset.filter (fun v => 0 < v)).card := by
        have hpos := Finset.card_pos.mpr ⟨m, hmS⟩
        omega

theorem buildPotsLoop_length (mask : List Bool) :
    ∀ (fuel : Nat) (rem : List Nat), rem.sum ≤ fuel →
      (buildPotsLoop mask fuel rem).length ≤
        (rem.toFinset.filter (fun v => 0 < v)).card := by
  intro fuel
  induction fuel with
  | zero => intro rem h; simp [buildPotsLoop]
  | succ f ih =>
    intro rem h
    by_cases hnil : positiveSeats rem = []
    · simp [buildPotsLoop, hnil]
    · have hcard := posVals_card_lt hnil
      have hlt := subtractLayer_sum_lt hnil
      simp only [buildPotsLoop, if_neg hnil, List.length_cons]
      have hrec := ih (subtractLayer rem (minPositive rem)) (by omega)
      omega

end P0

/-- C10: the `buildPots` loop terminates on every input of non-negative
integer contributions: each pass subtracts the positive layer minimum from
every positive remaining contribution, strictly decreasing both the total
remaining sum (which bounds the fuel of the embedded loop) and the set of
distinct positive remaining values, so the number of pots produced — the
number of loop iterations — is at most the number of distinct positive
contribution levels. -/
theorem claimC10_buildPots_terminates :
    ∀ (contribs : List Nat) (mask : List Bool),
      (P0.buildPots contribs mask).length ≤
        (contribs.toFinset.filter (fun v => 0 < v)).card :=
  fun contribs mask =>
    P0.buildPotsLoop_length mask contribs.sum contribs (Nat.le_refl _)

/-! ### C6 — failed validations leave the table unchanged -/

/-- C6: every action command that fails validation — in `part_000`: not
seated, not in the betting phase, not the actor's turn, already folded,
cannot check, invalid amount, raise too small, raise below minimum, unknown
action; in `server.js` additionally insufficient chips — returns an error
result and leaves the whole table state unchanged (and, in `server.js`,
schedules no street advance). -/
theorem claimC6_errors_leave_state_unchanged :
    (∀ (st : P0.GState) (sock : Nat) (act : P0.Action) (e : String)
      (st' : P0.GState),
      P0.performAction st sock act = (P0.ActRes.err e, st') → st' = st) ∧
    (∀ (t : SJ.TState) (sock : Nat) (ty : SJ.SActionType) (amt : Nat)
      (e : String) (t' : SJ.TState) (b : Bool),
      SJ.performAction t sock ty amt = (P0.ActRes.err e, t', b) →
      t' = t ∧ b = false) := by
  constructor
  · intro st sock act e st' h
    unfold P0.performAction at h
    cases hsl : P0.seatLookup st sock with
    | none =>
      simp only [hsl] at h
      injection h with h1 h2
      exact h2.symm
    | some ip =>
      obtain ⟨i, p⟩ := ip
      simp only [hsl] at h
      split at h
      · injection h with h1 h2; exact h2.symm
      · split at h
        · injection h with h1 h2; exact h2.symm
        · split at h
          · injection h with h1 h2; exact h2.symm
          · split at h
            · injection h with h1 h2; exact h2.symm
            · split at h <;> (injection h with h1 h2; cases h1)
  · intro t sock ty amt e t' b h
    unfold SJ.performAction at h
    cases hsl : SJ.seatLookup t sock with
    | none =>
      simp only [hsl] at h
      injection h with h1 h2
      injection h2 with h3 h4
      exact ⟨h3.symm, h4.symm⟩
    | some ip =>
      obtain ⟨i, p⟩ := ip
      simp only [hsl] at h
      split at h
      · injection h with h1 h2; injection h2 with h3 h4; exact ⟨h3.symm, h4.symm⟩
      · split at h
        · injection h with h1 h2; injection h2 with h3 h4; exact ⟨h3.symm, h4.symm⟩
        · split at h
          · injection h with h1 h2; injection h2 with h3 h4
            exact ⟨h3.symm, h4.symm⟩
          · split at h
            · injection h with h1 h2; injection h2 with h3 h4
              exact ⟨h3.symm, h4.symm⟩
            · split at h <;> (injection h with h1 h2; cases h1)

/-- Witness for C6: a socket that is not seated gets an error from both
engines and the tables are untouched. -/
theorem claimC6_errors_leave_state_unchanged_witness :
    (P0.performAction c1Init 99 ⟨P0.ActionType.fold, 0⟩).2 = c1Init ∧
    ((SJ.performAction sjT7 99 SJ.SActionType.fold 0).2.1 = sjT7 ∧
      (SJ.performAction sjT7 99 SJ.SActionType.fold 0).2.2 = false) :=
  ⟨claimC6_errors_leave_state_unchanged.1 c1Init 99 ⟨P0.ActionType.fold, 0⟩
      "not seated" _ (by rfl),
   claimC6_errors_leave_state_unchanged.2 sjT7 99 SJ.SActionType.fold 0
      "not seated" _ _ (by rfl)⟩

/-! ### C8 — all-in bookkeeping -/

/-- Counterexample to C8: reachable by play — seat 3 raises to 100 (becoming
the aggressor with `minimumRaise = 80`), then seat 0 shoves its whole stack
of 30 with 100 to call: a short all-in whose raise portion is not even
positive.  The claim says neither `minimumRaise` nor `lastAggressor` may
change, but the code re-points `lastAggressor` at seat 0. -/
theorem claimC8_counterexample :
    c8s0.1 = P0.ActRes.ok ∧ c8a1.1 = P0.ActRes.ok ∧ c8a2.1 = P0.ActRes.ok ∧
    c8a1.2.minimumRaise = 80 ∧ c8a1.2.lastAggressor = some 3 ∧
    P0.chipsAt c8a1.2 0 = 30 ∧ P0.highestCurrentBet c8a1.2 = 100 ∧
    c8a1.2.currentBets.getD 0 0 = 0 ∧
    c8a2.2.phase = P0.Phase.betting ∧
    c8a2.2.minimumRaise = 80 ∧
    c8a2.2.lastAggressor = some 0 ∧
    some 0 ≠ c8a1.2.lastAggressor := by
  decide

/-- C8 as amended: the all-in branch commits the entire stack; `minimumRaise`
becomes `max minimumRaise (chips − toCall)` whenever the shove exceeds the
call (so its value changes exactly when the raise portion exceeds the old
minimum) and is untouched otherwise; but `lastAggressor` is set to the
acting seat unconditionally — even for a short all-in or a mere all-in
call. -/
theorem claimC8_allin_commits_stack :
    ∀ (st : P0.GState) (i : Nat) (p : P0.Player) (a : Nat),
      P0.applyAction st i p ⟨P0.ActionType.allin, a⟩ =
        Except.ok { P0.commit st i p p.chips with
          minimumRaise :=
            if P0.highestCurrentBet st - st.currentBets.getD i 0 < p.chips then
              max st.minimumRaise
                (p.chips - (P0.highestCurrentBet st - st.currentBets.getD i 0))
            else st.minimumRaise
          lastAggressor := some i } := by
  intro st i p a
  unfold P0.applyAction
  dsimp only
  by_cases hc : P0.highestCurrentBet st - st.currentBets.getD i 0 < p.chips
  · rw [if_pos (show (0 : Int) <
      (p.chips : Int) - ((P0.highestCurrentBet st - st.currentBets.getD i 0 : Nat) : Int)
      by omega)]
    rw [if_pos hc]
    have hmr : (P0.commit st i p p.chips).minimumRaise = st.minimumRaise := rfl
    rw [hmr]
    have htn : ((p.chips : Int) -
        ((P0.highestCurrentBet st - st.currentBets.getD i 0 : Nat) : Int)).toNat =
        p.chips - (P0.highestCurrentBet st - st.currentBets.getD i 0) := by omega
    rw [htn]
  · rw [if_neg (show ¬ (0 : Int) <
      (p.chips : Int) - ((P0.highestCurrentBet st - st.currentBets.getD i 0 : Nat) : Int)
      by omega)]
    rw [if_neg hc]
    rfl

/-! ### C7 — what happens when a fold leaves one seat -/

namespace P0

theorem bettingRoundComplete_of_one_active {st : GState}
    (h : (activePlayersRemaining st).length = 1) :
    bettingRoundComplete st = true := by
  unfold bettingRoundComplete
  simp [h]

theorem advanceStreet_fields (st : GState)
    (h : st.community.length = 0 ∨ st.community.length = 3 ∨
      st.community.length = 4) :
    (advanceStreetOrShowdown st).phase = Phase.betting ∧
    (advanceStreetOrShowdown st).potTotal = st.potTotal ∧
    (advanceStreetOrShowdown st).seats = st.seats ∧
    (advanceStreetOrShowdown st).community.length =
      st.community.length + (if st.community.length = 0 then 3 else 1) := by
  unfold advanceStreetOrShowdown
  dsimp only
  rcases h with h | h | h
  · rw [if_pos h]
    refine ⟨rfl, rfl, rfl, ?_⟩
    simp [h]
  · rw [if_neg (by omega), if_pos h]
    refine ⟨rfl, rfl, rfl, ?_⟩
    simp [h]
  · rw [if_neg (by omega), if_neg (by omega), if_pos h]
    refine ⟨rfl, rfl, rfl, ?_⟩
    simp [h]

theorem getD_none_lt {α : Type} {l : List (Option α)} {i : Nat} {q : α}
    (h : l.getD i none = some q) : i < l.length := by
  by_contra hge
  rw [List.getD_eq_default] at h
  · cases h
  · omega

end P0

/-- Counterexample to C7: in the heads-up hand `c7s0`, seat 1's preflop fold
leaves seat 0 as the only non-folded seat, yet the hand does not end: the
flop is dealt, the phase stays `betting`, the 30-chip pot is not awarded,
and seat 0's stack is unchanged. -/
theorem claimC7_counterexample :
    c7s0.1 = P0.ActRes.ok ∧ c7s0.2.potTotal = 30 ∧
    c7a1.1 = P0.ActRes.ok ∧
    P0.activePlayersRemaining c7a1.2 = [0] ∧
    c7a1.2.phase = P0.Phase.betting ∧
    c7a1.2.community.length = 3 ∧
    c7a1.2.potTotal = 30 ∧
    P0.chipsAt c7a1.2 0 = 480 ∧
    P0.sumChips c7a1.2 = 970 := by
  decide

/-- C7 as amended: the two engines differ.  In `part_000`, a fold that
leaves exactly one non-folded seat on any street before the river does not
end the hand: the next street is dealt, the phase stays `betting`, the pot
is not awarded and no stack changes.  In `server.js`, a fold that leaves
exactly one seat in the hand ends it immediately: that seat is awarded the
entire pot with no evaluation, the pot is cleared, the phase becomes
`showdown`, no street advance is scheduled and the board is unchanged. -/
theorem claimC7_early_fold_behavior :
    (∀ (st : P0.GState) (sock i : Nat) (p : P0.Player) (a : Nat),
      P0.seatLookup st sock = some (i, p) →
      st.phase = P0.Phase.betting →
      st.currentTurnSeat = some i →
      st.folded.getD i false = false →
      (P0.activePlayersRemaining
        { st with folded := st.folded.set i true }).length = 1 →
      (st.community.length = 0 ∨ st.community.length = 3 ∨
        st.community.length = 4) →
      (P0.performAction st sock ⟨P0.ActionType.fold, a⟩).1 = P0.ActRes.ok ∧
      (P0.performAction st sock ⟨P0.ActionType.fold, a⟩).2.phase =
        P0.Phase.betting ∧
      (P0.performAction st sock ⟨P0.ActionType.fold, a⟩).2.potTotal =
        st.potTotal ∧
      P0.sumChips (P0.performAction st sock ⟨P0.ActionType.fold, a⟩).2 =
        P0.sumChips st ∧
      (P0.performAction st sock ⟨P0.ActionType.fold, a⟩).2.community.length =
        st.community.length + (if st.community.length = 0 then 3 else 1)) ∧
    (∀ (t : SJ.TState) (sock i : Nat) (p : SJ.SPlayer) (amt w : Nat)
      (q : SJ.SPlayer),
      SJ.seatLookup t sock = some (i, p) →
      t.phase = SJ.SPhase.betting →
      t.currentPlayerIndex = some i →
      t.folded.getD i false = false →
      t.seatsInHand.filter (fun j => j ≠ i) = [w] →
      t.seats.getD w none = some q →
      (SJ.performAction t sock SJ.SActionType.fold amt).1 = P0.ActRes.ok ∧
      (SJ.performAction t sock SJ.SActionType.fold amt).2.1.phase =
        SJ.SPhase.showdown ∧
      (SJ.performAction t sock SJ.SActionType.fold amt).2.1.pot = 0 ∧
      (SJ.performAction t sock SJ.SActionType.fold amt).2.2 = false ∧
      (SJ.performAction t sock SJ.SActionType.fold amt).2.1.community =
        t.community ∧
      (SJ.performAction t sock SJ.SActionType.fold amt).2.1.seats.getD w none =
        some { q with chips := q.chips + t.pot }) := by
  constructor
  · intro st sock i p a hsl hph hturn hfold hactive hcomm
    unfold P0.performAction
    simp only [hsl]
    rw [if_neg (by simp [hph]), if_neg (by simp [hturn]),
      if_neg (by simp only [List.getD_eq_getElem?_getD] at hfold; simp [hfold])]
    have happ : P0.applyAction st i p ⟨P0.ActionType.fold, a⟩ =
        Except.ok { st with folded := st.folded.set i true } := rfl
    rw [happ]
    dsimp only
    have hb : P0.bettingRoundComplete
        { st with
          folded := st.folded.set i true
          currentTurnSeat := P0.advanceToNextActive
            { st with folded := st.folded.set i true } i } = true :=
      P0.bettingRoundComplete_of_one_active hactive
    rw [if_pos hb]
    have hfields := P0.advanceStreet_fields
      { st with
        folded := st.folded.set i true
        currentTurnSeat := P0.advanceToNextActive
          { st with folded := st.folded.set i true } i } hcomm
    refine ⟨rfl, hfields.1, hfields.2.1, ?_, hfields.2.2.2⟩
    unfold P0.sumChips
    rw [hfields.2.2.1]
  · intro t sock i p amt w q hsl hph hturn hfold hfilter hw
    unfold SJ.performAction
    simp only [hsl]
    rw [if_neg (by simp [hph]), if_neg (by simp [hturn]),
      if_neg (by simp only [List.getD_eq_getElem?_getD] at hfold; simp [hfold])]
    dsimp only
    have hlen : (t.seatsInHand.filter (fun j => j ≠ i)).length = 1 := by
      rw [hfilter]
      rfl
    rw [if_pos hlen]
    have hhead : (t.seatsInHand.filter (fun j => j ≠ i)).headD 0 = w := by
      rw [hfilter]
      rfl
    rw [hhead, hw]
    refine ⟨rfl, rfl, rfl, rfl, rfl, ?_⟩
    dsimp only
    rw [List.getD_eq_getElem?_getD, List.getElem?_set_self (P0.getD_none_lt hw)]
    rfl

/-- Witness for C7 (amended), at the concrete states: seat 1's fold in the
`part_000` heads-up hand deals the flop and keeps the pot, while seat 1's
fold on the `server.js` table awards the 30-chip pot to seat 0 at once. -/
theorem claimC7_early_fold_behavior_witness :
    ((P0.performAction c7s0.2 22 ⟨P0.ActionType.fold, 0⟩).1 = P0.ActRes.ok ∧
      (P0.performAction c7s0.2 22 ⟨P0.ActionType.fold, 0⟩).2.phase =
        P0.Phase.betting ∧
      (P0.performAction c7s0.2 22 ⟨P0.ActionType.fold, 0⟩).2.potTotal =
        c7s0.2.potTotal ∧
      P0.sumChips (P0.performAction c7s0.2 22 ⟨P0.ActionType.fold, 0⟩).2 =
        P0.sumChips c7s0.2 ∧
      (P0.performAction c7s0.2 22 ⟨P0.ActionType.fold, 0⟩).2.community.length =
        c7s0.2.community.length + (if c7s0.2.community.length = 0 then 3 else 1)) ∧
    ((SJ.performAction sjT7 52 SJ.SActionType.fold 0).1 = P0.ActRes.ok ∧
      (SJ.performAction sjT7 52 SJ.SActionType.fold 0).2.1.phase =
        SJ.SPhase.showdown ∧
      (SJ.performAction sjT7 52 SJ.SActionType.fold 0).2.1.pot = 0 ∧
      (SJ.performAction sjT7 52 SJ.SActionType.fold 0).2.2 = false ∧
      (SJ.performAction sjT7 52 SJ.SActionType.fold 0).2.1.community =
        sjT7.community ∧
      (SJ.performAction sjT7 52 SJ.SActionType.fold 0).2.1.seats.getD 0 none =
        some ⟨51, "t0", 480 + sjT7.pot⟩) :=
  ⟨claimC7_early_fold_behavior.1 c7s0.2 22 1 ⟨22, "q1", 490, 0⟩ 0
      (by decide) (by decide) (by decide) (by decide) (by decide) (by decide),
   claimC7_early_fold_behavior.2 sjT7 52 1 ⟨52, "t1", 490⟩ 0 0 ⟨51, "t0", 480⟩
      (by decide) (by decide) (by decide) (by decide) (by decide) (by decide)⟩

/-! ### C1 — chip accounting -/

namespace P0

theorem sum_map_chips_set :
    ∀ (seats : List (Option Player)) (i : Nat) (p p' : Player),
      seats.getD i none = some p →
      ((seats.set i (some p')).map (fun s? =>
        match s? with | some q => q.chips | none => 0)).sum + p.chips =
      (seats.map (fun s? =>
        match s? with | some q => q.chips | none => 0)).sum + p'.chips := by
  intro seats
  induction seats with
  | nil =>
    intro i p p' h
    simp at h
  | cons s rest ih =>
    intro i p p' h
    cases i with
    | zero =>
      have hs : s = some p := by simpa using h
      subst hs
      simp only [List.set, List.map_cons, List.sum_cons]
      omega
    | succ i =>
      have h2 : rest.getD i none = some p := by simpa using h
      have h3 := ih i p p' h2
      simp only [List.set, List.map_cons, List.sum_cons]
      omega

theorem commit_conserves (st : GState) (i : Nat) (p : Player) (put : Nat)
    (hseat : st.seats.getD i none = some p) (hle : put ≤ p.chips) :
    sumChips (commit st i p put) + (commit st i p put).potTotal =
      sumChips st + st.potTotal := by
  unfold sumChips commit
  dsimp only
  have h := sum_map_chips_set st.seats i p { p with chips := p.chips - put } hseat
  have h2 : ({ p with chips := p.chips - put } : Player).chips = p.chips - put := rfl
  rw [h2] at h
  omega

theorem applyAction_conserves (st : GState) (i : Nat) (p : Player) (act : Action)
    (st' : GState) (hseat : st.seats.getD i none = some p)
    (h : applyAction st i p act = Except.ok st') :
    sumChips st' + st'.potTotal = sumChips st + st.potTotal := by
  obtain ⟨ty, amount⟩ := act
  cases ty with
  | fold =>
    injection h with h2
    subst h2
    rfl
  | check =>
    unfold applyAction at h
    dsimp only at h
    split at h
    · cases h
    · injection h with h2
      subst h2
      rfl
  | call =>
    unfold applyAction at h
    dsimp only at h
    injection h with h2
    subst h2
    exact commit_conserves st i p _ hseat (Nat.min_le_right _ _)
  | bet =>
    unfold applyAction at h
    dsimp only at h
    split at h
    · cases h
    · split at h
      · cases h
      · split at h
        · cases h
        · injection h with h2
          subst h2
          exact commit_conserves st i p _ hseat (Nat.min_le_left _ _)
  | raise =>
    unfold applyAction at h
    dsimp only at h
    split at h
    · cases h
    · split at h
      · cases h
      · split at h
        · cases h
        · injection h with h2
          subst h2
          exact commit_conserves st i p _ hseat (Nat.min_le_left _ _)
  | allin =>
    unfold applyAction at h
    dsimp only at h
    split at h
    · injection h with h2
      subst h2
      exact commit_conserves st i p _ hseat (Nat.le_refl _)
    · injection h with h2
      subst h2
      exact commit_conserves st i p _ hseat (Nat.le_refl _)
  | other tag =>
    cases h

theorem seatLookup_sound {st : GState} {sock i : Nat} {p : Player}
    (h : seatLookup st sock = some (i, p)) :
    st.seats.getD i none = some p := by
  unfold seatLookup at h
  obtain ⟨j, hj, hfj⟩ := List.exists_of_findSome?_eq_some h
  cases hg : st.seats.getD j none with
  | none => simp only [hg] at hfj; cases hfj
  | some q =>
    simp only [hg] at hfj
    by_cases hq : q.socketId = sock
    · rw [if_pos hq] at hfj
      injection hfj with h2
      injection h2 with h3 h4
      subst h3
      subst h4
      exact hg
    · rw [if_neg hq] at hfj
      cases hfj

theorem advanceStreet_conserves (st : GState)
    (hph : (advanceStreetOrShowdown st).phase ≠ Phase.showdown) :
    sumChips (advanceStreetOrShowdown st) + (advanceStreetOrShowdown st).potTotal =
      sumChips st + st.potTotal := by
  by_cases hc : st.community.length = 0 ∨ st.community.length = 3 ∨
      st.community.length = 4
  · have hf := advanceStreet_fields st hc
    unfold sumChips
    rw [hf.2.2.1, hf.2.1]
  · exfalso
    apply hph
    unfold advanceStreetOrShowdown
    dsimp only
    rw [if_neg (fun hh => hc (Or.inl hh)),
      if_neg (fun hh => hc (Or.inr (Or.inl hh))),
      if_neg (fun hh => hc (Or.inr (Or.inr hh)))]
    rfl

end P0

namespace P0

theorem compareScoreArrays_self : ∀ (s : List Nat), compareScoreArrays s s = 0 := by
  intro s
  induction s with
  | nil => rfl
  | cons a as ih =>
    unfold compareScoreArrays
    simp only [List.headD_cons, List.tail_cons]
    rw [if_neg (lt_irrefl a), if_neg (lt_irrefl a)]
    exact ih

theorem findBestScore_acc_some {hands : SeatHands} :
    ∀ (l : List Nat) (b : List Nat), (findBestScore hands l (some b)).isSome := by
  intro l
  induction l with
  | nil => intro b; rfl
  | cons x rest ih =>
    intro b
    unfold findBestScore
    cases hx : hands x with
    | none => exact ih b
    | some hd =>
      dsimp only
      split
      · exact ih _
      · exact ih _

theorem findBestScore_isSome {hands : SeatHands} :
    ∀ (l : List Nat) (acc : Option (List Nat)) (s : Nat), s ∈ l →
      (hands s).isSome = true → (findBestScore hands l acc).isSome = true := by
  intro l
  induction l with
  | nil =>
    intro acc s hs
    simp at hs
  | cons x rest ih =>
    intro acc s hs hsome
    unfold findBestScore
    cases hx : hands x with
    | none =>
      rcases List.mem_cons.mp hs with h | h
      · subst h
        rw [hx] at hsome
        cases hsome
      · exact ih _ s h hsome
    | some hd =>
      cases acc with
      | none => exact findBestScore_acc_some rest hd.score
      | some b =>
        dsimp only
        split
        · exact findBestScore_acc_some rest hd.score
        · exact findBestScore_acc_some rest b

theorem findBestScore_attained {hands : SeatHands} :
    ∀ (l : List Nat) (acc : Option (List Nat)) (b : List Nat),
      findBestScore hands l acc = some b →
      (∃ s ∈ l, ∃ hd, hands s = some hd ∧ hd.score = b) ∨ acc = some b := by
  intro l
  induction l with
  | nil => intro acc b h; exact Or.inr h
  | cons x rest ih =>
    intro acc b h
    unfold findBestScore at h
    cases hx : hands x with
    | none =>
      rw [hx] at h
      rcases ih _ b h with ⟨s, hs, hd, h1, h2⟩ | h1
      · exact Or.inl ⟨s, List.mem_cons_of_mem _ hs, hd, h1, h2⟩
      · exact Or.inr h1
    | some hd =>
      rw [hx] at h
      cases acc with
      | none =>
        rcases ih _ b h with ⟨s, hs, hd2, h1, h2⟩ | h1
        · exact Or.inl ⟨s, List.mem_cons_of_mem _ hs, hd2, h1, h2⟩
        · exact Or.inl ⟨x, List.mem_cons_self _ _, hd, hx, Option.some.inj h1⟩
      | some b0 =>
        dsimp only at h
        split at h
        · rcases ih _ b h with ⟨s, hs, hd2, h1, h2⟩ | h1
          · exact Or.inl ⟨s, List.mem_cons_of_mem _ hs, hd2, h1, h2⟩
          · exact Or.inl ⟨x, List.mem_cons_self _ _, hd, hx, Option.some.inj h1⟩
        · rcases ih _ b h with ⟨s, hs, hd2, h1, h2⟩ | h1
          · exact Or.inl ⟨s, List.mem_cons_of_mem _ hs, hd2, h1, h2⟩
          · exact Or.inr h1

theorem sum_bump {N s : Nat} (res : Nat → Nat) (x : Nat) (hs : s < N) :
    Finset.sum (Finset.range N) (bump res s x) =
      Finset.sum (Finset.range N) res + x := by
  unfold bump
  have hsplit : ∀ t, (if t = s then res t + x else res t) =
      res t + (if t = s then x else 0) := by
    intro t
    split <;> simp
  simp only [hsplit]
  rw [Finset.sum_add_distrib, Finset.sum_ite_eq' (Finset.range N) s (fun _ => x)]
  simp [hs]

theorem sum_foldl_bump {N : Nat} (x : Nat) :
    ∀ (ws : List Nat) (res : Nat → Nat), (∀ w ∈ ws, w < N) →
      Finset.sum (Finset.range N) (ws.foldl (fun r s => bump r s x) res) =
        Finset.sum (Finset.range N) res + x * ws.length := by
  intro ws
  induction ws with
  | nil => intro res h; simp
  | cons w rest ih =>
    intro res h
    simp only [List.foldl_cons, List.length_cons]
    rw [ih _ (fun u hu => h u (List.mem_cons_of_mem _ hu)),
      sum_bump res x (h w (List.mem_cons_self _ _)), Nat.mul_succ]
    omega

theorem sum_distributeStep {N : Nat} (hands : SeatHands) (res : Nat → Nat)
    (p : Pot) (hN : ∀ i ∈ p.eligibleSeats, i < N)
    (hwin : ∃ s ∈ p.eligibleSeats, (hands s).isSome = true) :
    Finset.sum (Finset.range N) (distributeStep hands res p) =
      Finset.sum (Finset.range N) res + p.amount := by
  obtain ⟨s0, hs0, hsome⟩ := hwin
  unfold distributeStep
  cases hb : findBestScore hands p.eligibleSeats none with
  | none =>
    exfalso
    have hsm := findBestScore_isSome p.eligibleSeats none s0 hs0 hsome
    rw [hb] at hsm
    cases hsm
  | some best =>
    dsimp only
    have hatt := findBestScore_attained p.eligibleSeats none best hb
    rcases hatt with ⟨s1, hs1, hd, hhd, hsc⟩ | hacc
    swap
    · cases hacc
    have hs1w : s1 ∈ winnersOf hands p.eligibleSeats best := by
      unfold winnersOf
      rw [List.mem_filter]
      refine ⟨hs1, ?_⟩
      rw [hhd]
      dsimp only
      rw [hsc, compareScoreArrays_self]
      rfl
    have hwN : ∀ w ∈ winnersOf hands p.eligibleSeats best, w < N := by
      intro w hw
      exact hN w (List.mem_filter.mp hw).1
    cases hwl : winnersOf hands p.eligibleSeats best with
    | nil =>
      rw [hwl] at hs1w
      cases hs1w
    | cons w ws =>
      rw [hwl] at hwN
      dsimp only
      have hdm : p.amount / (w :: ws).length * (w :: ws).length ≤ p.amount :=
        Nat.div_mul_le_self ..
      by_cases hrem :
          0 < p.amount - p.amount / (w :: ws).length * (w :: ws).length
      · rw [if_pos hrem]
        rw [sum_bump _ _ (hwN w (List.mem_cons_self _ _)), sum_foldl_bump _ _ _ hwN]
        omega
      · rw [if_neg hrem]
        rw [sum_foldl_bump _ _ _ hwN]
        omega

theorem distributePots_foldl_total {N : Nat} (hands : SeatHands) :
    ∀ (pots : List Pot) (res : Nat → Nat),
      (∀ p ∈ pots, ∀ i ∈ p.eligibleSeats, i < N) →
      (∀ p ∈ pots, ∃ s ∈ p.eligibleSeats, (hands s).isSome = true) →
      Finset.sum (Finset.range N) (pots.foldl (distributeStep hands) res) =
        Finset.sum (Finset.range N) res + (pots.map Pot.amount).sum := by
  intro pots
  induction pots with
  | nil => intro res _ _; simp
  | cons p rest ih =>
    intro res hN hwin
    simp only [List.foldl_cons, List.map_cons, List.sum_cons]
    rw [ih _ (fun q hq => hN q (List.mem_cons_of_mem _ hq))
        (fun q hq => hwin q (List.mem_cons_of_mem _ hq)),
      sum_distributeStep hands res p (hN p (List.mem_cons_self _ _))
        (hwin p (List.mem_cons_self _ _))]
    omega

end P0

/-- Counterexample to C1: a legal hand in which chips vanish.  Seat 0
(100 chips) goes all-in, seat 1 raises over it, seat 2 folds; on the flop
seat 1 bets 50 unchallenged and on the turn seat 1 folds, leaving only the
all-in seat 0; showdown distributes the layered pots, but the 150 chips of
seat 1's over-contribution sit in a pot with no eligible seats and are
dropped: the table starts at Σ stacks + potTotal = 2100 and ends at 1950. -/
theorem claimC1_counterexample :
    c1s0.1 = P0.ActRes.ok ∧ c1a1.1 = P0.ActRes.ok ∧ c1a2.1 = P0.ActRes.ok ∧
    c1a3.1 = P0.ActRes.ok ∧ c1a4.1 = P0.ActRes.ok ∧ c1a5.1 = P0.ActRes.ok ∧
    c1a6.1 = P0.ActRes.ok ∧
    c1a6.2.phase = P0.Phase.showdown ∧
    P0.sumChips c1s0.2 + c1s0.2.potTotal = 2100 ∧
    P0.sumChips c1a6.2 + c1a6.2.potTotal = 1950 ∧
    P0.sumChips c1a6.2 + c1a6.2.potTotal ≠
      P0.sumChips c1s0.2 + c1s0.2.potTotal := by
  decide

/-- C1 as amended: Σ stacks + potTotal is preserved by every action that
does not trigger the showdown; at showdown, `distributePots` pays out
exactly the amounts of the pots that have an eligible seat holding a scored
hand — so conservation holds when every pot has one, and the amounts of
pots without one (over-contributions whose only claimants folded) are
destroyed; `buildPots` itself always accounts for every contributed chip. -/
theorem claimC1_chip_conservation :
    (∀ (st : P0.GState) (sock : Nat) (act : P0.Action) (r : P0.ActRes)
      (st' : P0.GState),
      P0.performAction st sock act = (r, st') →
      st'.phase ≠ P0.Phase.showdown →
      P0.sumChips st' + st'.potTotal = P0.sumChips st + st.potTotal) ∧
    (∀ (pots : List P0.Pot) (hands : P0.SeatHands) (N : Nat),
      (∀ p ∈ pots, ∀ i ∈ p.eligibleSeats, i < N) →
      (∀ p ∈ pots, ∃ s ∈ p.eligibleSeats, (hands s).isSome = true) →
      Finset.sum (Finset.range N) (P0.distributePots pots hands) =
        (pots.map P0.Pot.amount).sum) ∧
    (∀ (contribs : List Nat) (mask : List Bool),
      ((P0.buildPots contribs mask).map P0.Pot.amount).sum = contribs.sum) := by
  refine ⟨?_, ?_, ?_⟩
  · intro st sock act r st' h hph
    unfold P0.performAction at h
    cases hsl : P0.seatLookup st sock with
    | none =>
      simp only [hsl] at h
      injection h with h1 h2
      subst h2
      rfl
    | some ip =>
      obtain ⟨i, p⟩ := ip
      simp only [hsl] at h
      have hseat := P0.seatLookup_sound hsl
      split at h
      · injection h with h1 h2; subst h2; rfl
      · split at h
        · injection h with h1 h2; subst h2; rfl
        · split at h
          · injection h with h1 h2; subst h2; rfl
          · split at h
            next e heq =>
              injection h with h1 h2
              subst h2
              rfl
            next st1 heq =>
              split at h
              · injection h with h1 h2
                subst h2
                have hcons := P0.applyAction_conserves st i p act st1 hseat heq
                have hadv := P0.advanceStreet_conserves _ hph
                exact hadv.trans hcons
              · injection h with h1 h2
                subst h2
                exact P0.applyAction_conserves st i p act st1 hseat heq
  · intro pots hands N hN hwin
    unfold P0.distributePots
    rw [P0.distributePots_foldl_total hands pots _ hN hwin]
    simp
  · intro contribs mask
    exact P0.buildPotsLoop_amount_sum mask contribs.sum contribs (Nat.le_refl _)

/-- Witness for C1 (amended): a rejected action conserves the 2100-chip
table; a single pot with a scored eligible seat pays out in full; the pots
built from `[100, 250, 20]` carry all 370 contributed chips. -/
theorem claimC1_chip_conservation_witness :
    P0.sumChips (P0.performAction c1Init 99 ⟨P0.ActionType.fold, 0⟩).2 +
      (P0.performAction c1Init 99 ⟨P0.ActionType.fold, 0⟩).2.potTotal =
      P0.sumChips c1Init + c1Init.potTotal ∧
    Finset.sum (Finset.range 1) (P0.distributePots [P0.Pot.mk 50 [0]] c3Hands) =
      ([P0.Pot.mk 50 [0]].map P0.Pot.amount).sum ∧
    ((P0.buildPots [100, 250, 20] [true, false, false]).map P0.Pot.amount).sum =
      [(100 : Nat), 250, 20].sum :=
  ⟨claimC1_chip_conservation.1 c1Init 99 ⟨P0.ActionType.fold, 0⟩
      (P0.ActRes.err "not seated") c1Init (by rfl) (by decide),
   claimC1_chip_conservation.2.1 [P0.Pot.mk 50 [0]] c3Hands 1
      (by decide) (by decide),
   claimC1_chip_conservation.2.2 [100, 250, 20] [true, false, false]⟩
